import Mathlib

/-!
# jwt-go signing core: HMAC signing method, key parsers, error taxonomy

A shallow embedding of `hmac.go`, `errors.go`, `rsa_utils.go` and `ecdsa_utils.go`.

Conventions of the embedding:

* a Go `[]byte` and a Go `string` that is processed bytewise are lists of bytes (`ByteSlice`,
  `GoString`), so that `[]byte(signingString)` is the identity;
* a Go `interface{}` value is a `Value`, a tagged union over the dynamic types that occur;
* a Go `error` is an `Option Error`, `none` being `nil`; a Go result pair `(v, err)` is a pair;
* collaborators that live outside the four source files (the segment codec, the hash table of
  package `crypto`, the PEM and X.509 decoders, the registry of signing methods) are fields
  of an environment structure that every operation takes as its first argument.
-/

namespace jwt

/-! ## Data model -/

/-- A Go byte slice. -/
abbrev ByteSlice := List Nat

/-- A Go string, as its sequence of bytes. -/
abbrev GoString := List Nat

/-- The bytes of an ASCII literal. -/
def ascii (s : String) : List Nat := s.toList.map Char.toNat

/-- The value `rsa.PublicKey`. -/
structure RSAPublicKey where
  N : Nat
  E : Nat
deriving DecidableEq, Repr

/-- The value `rsa.PrivateKey`. -/
structure RSAPrivateKey where
  PublicKey : RSAPublicKey
  D : Nat
deriving DecidableEq, Repr

/-- The value `ecdsa.PublicKey`; the curve is named by its bit size. -/
structure ECDSAPublicKey where
  Curve : Nat
  X : Nat
  Y : Nat
deriving DecidableEq, Repr

/-- The value `ecdsa.PrivateKey`. -/
structure ECDSAPrivateKey where
  PublicKey : ECDSAPublicKey
  D : Nat
deriving DecidableEq, Repr

/-- A Go `interface{}` value: the dynamic type is the constructor. -/
inductive Value where
  /-- The nil interface. -/
  | nil
  /-- Dynamic type `[]byte`. -/
  | bytes (b : ByteSlice)
  /-- Dynamic type `string`. -/
  | string (s : GoString)
  /-- Dynamic type `int`. -/
  | int (n : Int)
  /-- Dynamic type `*rsa.PrivateKey`. -/
  | rsaPrivateKey (k : RSAPrivateKey)
  /-- Dynamic type `*rsa.PublicKey`. -/
  | rsaPublicKey (k : RSAPublicKey)
  /-- Dynamic type `*ecdsa.PrivateKey`. -/
  | ecdsaPrivateKey (k : ECDSAPrivateKey)
  /-- Dynamic type `*ecdsa.PublicKey`. -/
  | ecdsaPublicKey (k : ECDSAPublicKey)
  /-- Any other dynamic type (for instance `ed25519.PrivateKey`), named by a tag. -/
  | other (typeTag : Nat) (payload : ByteSlice)
deriving DecidableEq, Repr

/-- The type assertion `key.([]byte)`: the slice and `ok`. -/
def Value.assertBytes : Value → ByteSlice × Bool
  | .bytes b => (b, true)
  | _ => ([], false)

/-- The type assertion `parsedKey.(*rsa.PrivateKey)`. -/
def Value.assertRSAPrivateKey : Value → Option RSAPrivateKey × Bool
  | .rsaPrivateKey k => (some k, true)
  | _ => (none, false)

/-- The type assertion `parsedKey.(*rsa.PublicKey)`. -/
def Value.assertRSAPublicKey : Value → Option RSAPublicKey × Bool
  | .rsaPublicKey k => (some k, true)
  | _ => (none, false)

/-- The type assertion `parsedKey.(*ecdsa.PrivateKey)`. -/
def Value.assertECDSAPrivateKey : Value → Option ECDSAPrivateKey × Bool
  | .ecdsaPrivateKey k => (some k, true)
  | _ => (none, false)

/-- The type assertion `parsedKey.(*ecdsa.PublicKey)`. -/
def Value.assertECDSAPublicKey : Value → Option ECDSAPublicKey × Bool
  | .ecdsaPublicKey k => (some k, true)
  | _ => (none, false)

/-! ## errors.go, and the error types of rsa_utils.go and ecdsa_utils.go -/

/-- The non-nil values of Go's `error` that this package returns or passes through. -/
inductive Error where
  /-- The variable `ErrHashUnavailable` of errors.go. -/
  | ErrHashUnavailable
  /-- The variable `ErrSignatureInvalid` of hmac.go. -/
  | ErrSignatureInvalid
  /-- The struct `ErrInvalidKey` of errors.go. -/
  | ErrInvalidKey (key : Value)
  /-- The struct `ErrInvalidKeyType` of errors.go. -/
  | ErrInvalidKeyType (key : Value)
  /-- The struct `ErrKeyNotPEMEncoded` of rsa_utils.go. -/
  | ErrKeyNotPEMEncoded (key : Value)
  /-- The struct `ErrNotRSAPrivateKey` of rsa_utils.go. -/
  | ErrNotRSAPrivateKey (key : Value)
  /-- The struct `ErrNotRSAPublicKey` of rsa_utils.go. -/
  | ErrNotRSAPublicKey (key : Value)
  /-- The struct `ErrNotECKey` of ecdsa_utils.go. -/
  | ErrNotECKey (public : Bool) (key : Value)
  /-- The error `base64.CorruptInputError` of the segment decoder, with its offset. -/
  | CorruptInputError (offset : Nat)
  /-- An error value made by a decoder of `crypto/x509`, named by its message. -/
  | external (msg : String)
deriving DecidableEq, Repr

/-- The method `Key()` of the `ErrKey` interface; `none` for an error that is no `ErrKey`. -/
def Error.Key : Error → Option Value
  | .ErrInvalidKey key => some key
  | .ErrInvalidKeyType key => some key
  | .ErrKeyNotPEMEncoded key => some key
  | .ErrNotRSAPrivateKey key => some key
  | .ErrNotRSAPublicKey key => some key
  | .ErrNotECKey _ key => some key
  | _ => none

/-- The constructor function `ErrNotECPublicKey` of ecdsa_utils.go. -/
def ErrNotECPublicKey (key : Value) : Error := .ErrNotECKey true key

/-- The constructor function `ErrNotECPrivateKey` of ecdsa_utils.go. -/
def ErrNotECPrivateKey (key : Value) : Error := .ErrNotECKey false key

/-! ## The consumed collaborators of hmac.go -/

/-- A hash function as package `crypto` hands it out: `BlockSize()` and the digest of
everything written (`Write` appends, `Sum(nil)` digests). -/
structure HashImpl where
  blockSize : Nat
  sum : ByteSlice → ByteSlice

/-- The result of `copy(dst, key)` into a zeroed `dst` of length `n`. -/
def copyInto (n : Nat) (key : ByteSlice) : ByteSlice :=
  key.take n ++ List.replicate (n - key.length) 0

/-- The digest `hasher.Sum(nil)` of `hasher := hmac.New(h, key); hasher.Write(msg)`, following
`crypto/hmac`: a key longer than the block is hashed first, the key is copied into zeroed
pads of one block, xored with 0x36 and 0x5c, and the outer hash digests the inner digest. -/
def hmacSum (h : HashImpl) (key msg : ByteSlice) : ByteSlice :=
  let key1 := if key.length > h.blockSize then h.sum key else key
  let ipad := (copyInto h.blockSize key1).map (fun b => b ^^^ 0x36)
  let opad := (copyInto h.blockSize key1).map (fun b => b ^^^ 0x5c)
  h.sum (opad ++ h.sum (ipad ++ msg))

/-- The function `subtle.ConstantTimeCompare`: 0 for slices of different lengths; otherwise
every pair of bytes is xored into one accumulator, and the result is 1 when the accumulator
is still zero at the end, 0 when it is not. -/
def constantTimeCompare (x y : ByteSlice) : Nat :=
  if x.length ≠ y.length then 0
  else
    let v := (List.zipWith (fun a b => a ^^^ b) x y).foldl (fun v d => v ||| d) 0
    if v = 0 then 1 else 0

/-- The function `hmac.Equal`. -/
def hmacEqual (mac1 mac2 : ByteSlice) : Bool := constantTimeCompare mac1 mac2 == 1

/-- What hmac.go consumes from outside the four source files. -/
structure Runtime where
  /-- The table of linked hash functions of package `crypto`, indexed by `crypto.Hash`. -/
  hashes : Nat → Option HashImpl
  /-- The package function `EncodeSegment`. -/
  EncodeSegment : ByteSlice → GoString
  /-- The package function `DecodeSegment`, returning `([]byte, error)`. -/
  DecodeSegment : GoString → ByteSlice × Option Error

/-- The method `crypto.Hash.Available`. -/
def Runtime.Available (rt : Runtime) (h : Nat) : Bool := (rt.hashes h).isSome

/-! ## hmac.go -/

/-- The constants `crypto.SHA256`, `crypto.SHA384`, `crypto.SHA512`. -/
def crypto.SHA256 : Nat := 5

def crypto.SHA384 : Nat := 6

def crypto.SHA512 : Nat := 7

/-- The struct `SigningMethodHMAC`. -/
structure SigningMethodHMAC where
  Name : String
  Hash : Nat
deriving DecidableEq, Repr

/-- The instances that `init` builds. -/
def SigningMethodHS256 : SigningMethodHMAC := ⟨"HS256", crypto.SHA256⟩

def SigningMethodHS384 : SigningMethodHMAC := ⟨"HS384", crypto.SHA384⟩

def SigningMethodHS512 : SigningMethodHMAC := ⟨"HS512", crypto.SHA512⟩

/-- The method `Alg`. -/
def SigningMethodHMAC.Alg (m : SigningMethodHMAC) : String := m.Name

/-- The method `Verify`: `none` is the nil error. The hash is available when the table of the
runtime has an entry for `m.Hash`, and `m.Hash.New` is then that entry. -/
def SigningMethodHMAC.Verify (rt : Runtime) (m : SigningMethodHMAC)
    (signingString signature : GoString) (key : Value) : Option Error :=
  -- Verify the key is the right type
  match key.assertBytes with
  | (_, false) => some (.ErrInvalidKeyType key)
  | (keyBytes, true) =>
    -- Decode signature, for comparison
    match rt.DecodeSegment signature with
    | (_, some err) => some err
    | (sig, none) =>
      -- Can we use the specified hashing method?
      match rt.hashes m.Hash with
      | none => some .ErrHashUnavailable
      | some h =>
        if !hmacEqual sig (hmacSum h keyBytes signingString) then
          some .ErrSignatureInvalid
        else
          none

/-- The method `Sign`, returning `(string, error)`. -/
def SigningMethodHMAC.Sign (rt : Runtime) (m : SigningMethodHMAC)
    (signingString : GoString) (key : Value) : GoString × Option Error :=
  match key.assertBytes with
  | (_, false) => ([], some (.ErrInvalidKey key))
  | (keyBytes, true) =>
    match rt.hashes m.Hash with
    | none => ([], some .ErrHashUnavailable)
    | some h => (rt.EncodeSegment (hmacSum h keyBytes signingString), none)

/-! ## errors.go: the validation error -/

/-- The error flags of a `ValidationError`: `1 << iota` for iota = 0 .. 9, as `uint32`. -/
def ValidationErrorMalformed : Nat := (1 <<< 0) % 2 ^ 32

def ValidationErrorUnverifiable : Nat := (1 <<< 1) % 2 ^ 32

def ValidationErrorSignatureInvalid : Nat := (1 <<< 2) % 2 ^ 32

def ValidationErrorAudience : Nat := (1 <<< 3) % 2 ^ 32

def ValidationErrorExpired : Nat := (1 <<< 4) % 2 ^ 32

def ValidationErrorIssuedAt : Nat := (1 <<< 5) % 2 ^ 32

def ValidationErrorIssuer : Nat := (1 <<< 6) % 2 ^ 32

def ValidationErrorNotValidYet : Nat := (1 <<< 7) % 2 ^ 32

def ValidationErrorID : Nat := (1 <<< 8) % 2 ^ 32

def ValidationErrorClaimsInvalid : Nat := (1 <<< 9) % 2 ^ 32

/-- The struct `ValidationError`; `Errors` is a `uint32`. -/
structure ValidationError where
  Inner : Option Error
  Errors : Nat
  text : String
deriving DecidableEq, Repr

/-- The function `NewValidationError`. -/
def NewValidationError (errorText : String) (errorFlags : Nat) : ValidationError :=
  { Inner := none, Errors := errorFlags, text := errorText }

/-- The method `valid`. -/
def ValidationError.valid (e : ValidationError) : Bool := e.Errors == 0

/-! ## rsa_utils.go and ecdsa_utils.go -/

/-- The struct `pem.Block`. -/
structure PemBlock where
  BlockType : String
  Bytes : ByteSlice
deriving DecidableEq, Repr

/-- The struct `x509.Certificate`, of which only the field `PublicKey` is read. -/
structure Certificate where
  PublicKey : Value
deriving DecidableEq, Repr

/-- The decoders of `encoding/pem` and `crypto/x509` that the parsers consume. A decoder that
returns `(v, err)` is an `Except`: the parsers read `v` only when `err` is nil. -/
structure X509 where
  /-- The function `pem.Decode`: the block, or nil when no PEM block is found. -/
  pemDecode : ByteSlice → Option PemBlock
  /-- The function `x509.ParsePKCS1PrivateKey`, of result type `*rsa.PrivateKey`. -/
  ParsePKCS1PrivateKey : ByteSlice → Except Error RSAPrivateKey
  /-- The function `x509.ParsePKCS8PrivateKey`, of result type `interface{}`. -/
  ParsePKCS8PrivateKey : ByteSlice → Except Error Value
  /-- The function `x509.ParseECPrivateKey`, of result type `*ecdsa.PrivateKey`. -/
  ParseECPrivateKey : ByteSlice → Except Error ECDSAPrivateKey
  /-- The function `x509.ParsePKIXPublicKey`, of result type `interface{}`. -/
  ParsePKIXPublicKey : ByteSlice → Except Error Value
  /-- The function `x509.ParseCertificate`. -/
  ParseCertificate : ByteSlice → Except Error Certificate

/-- The function `ParseRSAPrivateKeyFromPEM`, returning `(*rsa.PrivateKey, error)`. -/
def ParseRSAPrivateKeyFromPEM (x : X509) (key : ByteSlice) :
    Option RSAPrivateKey × Option Error :=
  -- Parse PEM block
  match x.pemDecode key with
  | none => (none, some (.ErrKeyNotPEMEncoded (.bytes key)))
  | some block =>
    match (match x.ParsePKCS1PrivateKey block.Bytes with
           | .ok k => Except.ok (Value.rsaPrivateKey k)
           | .error _ => x.ParsePKCS8PrivateKey block.Bytes) with
    | .error err => (none, some err)
    | .ok parsedKey =>
      match parsedKey.assertRSAPrivateKey with
      | (_, false) => (none, some (.ErrNotRSAPrivateKey parsedKey))
      | (pkey, true) => (pkey, none)

/-- The function `ParseRSAPublicKeyFromPEM`, returning `(*rsa.PublicKey, error)`. In the
source the `err` returned when both decoders fail is the one declared by
`cert, err := x509.ParseCertificate(...)`. -/
def ParseRSAPublicKeyFromPEM (x : X509) (key : ByteSlice) :
    Option RSAPublicKey × Option Error :=
  -- Parse PEM block
  match x.pemDecode key with
  | none => (none, some (.ErrKeyNotPEMEncoded (.bytes key)))
  | some block =>
    -- Parse the key
    match (match x.ParsePKIXPublicKey block.Bytes with
           | .ok k => Except.ok k
           | .error _ =>
             match x.ParseCertificate block.Bytes with
             | .ok cert => Except.ok cert.PublicKey
             | .error err => Except.error err) with
    | .error err => (none, some err)
    | .ok parsedKey =>
      match parsedKey.assertRSAPublicKey with
      | (_, false) => (none, some (.ErrNotRSAPublicKey (.bytes key)))
      | (pkey, true) => (pkey, none)

/-- The function `ParseECPrivateKeyFromPEM`, returning `(*ecdsa.PrivateKey, error)`. -/
def ParseECPrivateKeyFromPEM (x : X509) (key : ByteSlice) :
    Option ECDSAPrivateKey × Option Error :=
  -- Parse PEM block
  match x.pemDecode key with
  | none => (none, some (.ErrKeyNotPEMEncoded (.bytes key)))
  | some block =>
    -- Parse the key
    match x.ParseECPrivateKey block.Bytes with
    | .error err => (none, some err)
    | .ok k =>
      let parsedKey := Value.ecdsaPrivateKey k
      match parsedKey.assertECDSAPrivateKey with
      | (_, false) => (none, some (ErrNotECPrivateKey parsedKey))
      | (pkey, true) => (pkey, none)

/-- The function `ParseECPublicKeyFromPEM`, returning `(*ecdsa.PublicKey, error)`. -/
def ParseECPublicKeyFromPEM (x : X509) (key : ByteSlice) :
    Option ECDSAPublicKey × Option Error :=
  -- Parse PEM block
  match x.pemDecode key with
  | none => (none, some (.ErrKeyNotPEMEncoded (.bytes key)))
  | some block =>
    -- Parse the key
    match (match x.ParsePKIXPublicKey block.Bytes with
           | .ok k => Except.ok k
           | .error _ =>
             match x.ParseCertificate block.Bytes with
             | .ok cert => Except.ok cert.PublicKey
             | .error err => Except.error err) with
    | .error err => (none, some err)
    | .ok parsedKey =>
      match parsedKey.assertECDSAPublicKey with
      | (_, false) => (none, some (ErrNotECPublicKey parsedKey))
      | (pkey, true) => (pkey, none)

/-! ## A concrete runtime: SHA-256 and the base64url segment codec -/

/-- Rotation to the right of a 32-bit word. -/
def rotr32 (x n : Nat) : Nat := ((x >>> n) ||| (x <<< (32 - n))) % 2 ^ 32

/-- The round constants of SHA-256 (FIPS 180-4, section 4.2.2). -/
def sha256K : List Nat := [
  0x428a2f98, 0x71374491, 0xb5c0fbcf, 0xe9b5dba5, 0x3956c25b, 0x59f111f1, 0x923f82a4, 0xab1c5ed5,
  0xd807aa98, 0x12835b01, 0x243185be, 0x550c7dc3, 0x72be5d74, 0x80deb1fe, 0x9bdc06a7, 0xc19bf174,
  0xe49b69c1, 0xefbe4786, 0x0fc19dc6, 0x240ca1cc, 0x2de92c6f, 0x4a7484aa, 0x5cb0a9dc, 0x76f988da,
  0x983e5152, 0xa831c66d, 0xb00327c8, 0xbf597fc7, 0xc6e00bf3, 0xd5a79147, 0x06ca6351, 0x14292967,
  0x27b70a85, 0x2e1b2138, 0x4d2c6dfc, 0x53380d13, 0x650a7354, 0x766a0abb, 0x81c2c92e, 0x92722c85,
  0xa2bfe8a1, 0xa81a664b, 0xc24b8b70, 0xc76c51a3, 0xd192e819, 0xd6990624, 0xf40e3585, 0x106aa070,
  0x19a4c116, 0x1e376c08, 0x2748774c, 0x34b0bcb5, 0x391c0cb3, 0x4ed8aa4a, 0x5b9cca4f, 0x682e6ff3,
  0x748f82ee, 0x78a5636f, 0x84c87814, 0x8cc70208, 0x90befffa, 0xa4506ceb, 0xbef9a3f7, 0xc67178f2]

/-- The initial hash value of SHA-256 (FIPS 180-4, section 5.3.3). -/
def sha256Init : List Nat :=
  [0x6a09e667, 0xbb67ae85, 0x3c6ef372, 0xa54ff53a, 0x510e527f, 0x9b05688c, 0x1f83d9ab, 0x5be0cd19]

/-- The `n` low bytes of `x`, most significant first. -/
def beBytes : Nat → Nat → ByteSlice
  | 0, _ => []
  | n + 1, x => (x >>> (8 * n)) % 256 :: beBytes n x

/-- The message followed by the bit 1, zeros, and its bit length on 8 bytes: a multiple of
64 bytes. -/
def sha256Pad (msg : ByteSlice) : ByteSlice :=
  msg ++ 0x80 :: List.replicate ((119 - msg.length % 64) % 64) 0 ++ beBytes 8 (8 * msg.length)

/-- The first `n` big-endian 32-bit words of a byte string. -/
def beWords : Nat → ByteSlice → List Nat
  | 0, _ => []
  | n + 1, a :: b :: c :: d :: rest =>
      (((a % 256) <<< 24) ||| ((b % 256) <<< 16) ||| ((c % 256) <<< 8) ||| (d % 256))
        :: beWords n rest
  | _ + 1, _ => []

/-- The message schedule extended by `n` words; the list holds the newest word first. -/
def sha256Schedule : Nat → List Nat → List Nat
  | 0, w => w
  | n + 1, w =>
      let w2 := w.getD 1 0
      let w7 := w.getD 6 0
      let w15 := w.getD 14 0
      let w16 := w.getD 15 0
      let s0 := rotr32 w15 7 ^^^ rotr32 w15 18 ^^^ (w15 >>> 3)
      let s1 := rotr32 w2 17 ^^^ rotr32 w2 19 ^^^ (w2 >>> 10)
      sha256Schedule n (((s1 + w7 + s0 + w16) % 2 ^ 32) :: w)

/-- One round of the compression function on the working variables a .. h. -/
def sha256Round (st : List Nat) (kw : Nat × Nat) : List Nat :=
  match st with
  | [a, b, c, d, e, f, g, h] =>
      let s1 := rotr32 e 6 ^^^ rotr32 e 11 ^^^ rotr32 e 25
      let ch := (e &&& f) ^^^ ((e ^^^ 0xffffffff) &&& g)
      let t1 := (h + s1 + ch + kw.1 + kw.2) % 2 ^ 32
      let s0 := rotr32 a 2 ^^^ rotr32 a 13 ^^^ rotr32 a 22
      let maj := (a &&& b) ^^^ (a &&& c) ^^^ (b &&& c)
      let t2 := (s0 + maj) % 2 ^ 32
      [(t1 + t2) % 2 ^ 32, a, b, c, (d + t1) % 2 ^ 32, e, f, g]
  | _ => st

/-- The compression of one 64-byte block into the hash value. -/
def sha256Block (st : List Nat) (block : ByteSlice) : List Nat :=
  let w := (sha256Schedule 48 (beWords 16 block).reverse).reverse
  let out := (sha256K.zip w).foldl sha256Round st
  List.zipWith (fun x y => (x + y) % 2 ^ 32) st out

/-- The compression of the first `n` blocks of `data`. -/
def sha256Blocks : Nat → List Nat → ByteSlice → List Nat
  | 0, st, _ => st
  | n + 1, st, data => sha256Blocks n (sha256Block st (data.take 64)) (data.drop 64)

/-- The digest `sha256.Sum256`, by FIPS 180-4. -/
def sha256 (msg : ByteSlice) : ByteSlice :=
  let p := sha256Pad msg
  (sha256Blocks (p.length / 64) sha256Init p).flatMap (beBytes 4)

/-- The hash that `crypto.SHA256.New` hands out: block size 64. -/
def sha256Impl : HashImpl := ⟨64, sha256⟩

/-- The alphabet of base64url (RFC 4648, section 5). -/
def base64urlAlphabet : List Nat :=
  ascii "ABCDEFGHIJKLMNOPQRSTUVWXYZabcdefghijklmnopqrstuvwxyz0123456789-_"

/-- The character of a 6-bit value. -/
def encodeSextet (v : Nat) : Nat := base64urlAlphabet.getD (v % 64) 0

/-- The 6-bit value of a character, if it is in the alphabet. -/
def decodeSextet (c : Nat) : Option Nat :=
  let i := base64urlAlphabet.indexOf c
  if i < 64 then some i else none

/-- The 6-bit values of a byte string, most significant bits first; the last value of an
incomplete group of three bytes is filled with zero bits. -/
def sextetsOf : ByteSlice → List Nat
  | a :: b :: c :: rest =>
      (a / 4) :: ((a % 4) * 16 + b / 16) :: ((b % 16) * 4 + c / 64) :: (c % 64)
        :: sextetsOf rest
  | [a, b] => [a / 4, (a % 4) * 16 + b / 16, (b % 16) * 4]
  | [a] => [a / 4, (a % 4) * 16]
  | [] => []

/-- Modelled from the spec: the package function `EncodeSegment`, which is not in the four
source files; the spec has it return its argument "encoded as an unpadded base64url
segment". -/
def EncodeSegment (seg : ByteSlice) : GoString := (sextetsOf seg).map encodeSextet

/-- The 6-bit values of a segment, or the offset of its first byte outside the alphabet. -/
def decodeSextets : Nat → GoString → Except Nat (List Nat)
  | _, [] => .ok []
  | off, c :: rest =>
      match decodeSextet c with
      | none => .error off
      | some v =>
        match decodeSextets (off + 1) rest with
        | .error e => .error e
        | .ok vs => .ok (v :: vs)

/-- The bytes of a list of 6-bit values; `none` when one value is left over. The bits of the
last value that do not fill a byte are dropped. -/
def packSextets : List Nat → Option ByteSlice
  | a :: b :: c :: d :: rest =>
      (packSextets rest).map (fun bs =>
        (a * 4 + b / 16) :: ((b % 16) * 16 + c / 4) :: ((c % 4) * 64 + d) :: bs)
  | [a, b, c] => some [a * 4 + b / 16, (b % 16) * 16 + c / 4]
  | [a, b] => some [a * 4 + b / 16]
  | [_] => none
  | [] => some []

/-- Modelled from the spec: the package function `DecodeSegment`, which is not in the four
source files; the spec has it "decode signature from its base64url segment form", with a
decode failure as an error. A byte outside the alphabet, or a single left-over character, is
a `CorruptInputError`. -/
def DecodeSegment (seg : GoString) : ByteSlice × Option Error :=
  match decodeSextets 0 seg with
  | .error off => ([], some (.CorruptInputError off))
  | .ok vs =>
    match packSextets vs with
    | none => ([], some (.CorruptInputError seg.length))
    | some bs => (bs, none)

/-- The runtime with a given table of linked hashes and the base64url segment codec. -/
def base64urlRuntime (hashes : Nat → Option HashImpl) : Runtime where
  hashes := hashes
  EncodeSegment := EncodeSegment
  DecodeSegment := DecodeSegment

/-- A runtime in which `crypto/sha256` is the only hash package linked. -/
def sha256Runtime : Runtime :=
  base64urlRuntime (fun h => if h = crypto.SHA256 then some sha256Impl else none)

/-- The string `s` with bit `bit` of its byte `i` flipped. -/
def flipBit (s : GoString) (i bit : Nat) : GoString :=
  s.modify (fun b => b ^^^ (1 <<< bit)) i

/-- The divisor that removes the bits of the value of the last character of a segment that
reach no byte, for a segment that encodes `n` bytes: the low 4 bits after one byte left over,
the low 2 bits after two, none after full groups of three bytes. -/
def keptDivisor (n : Nat) : Nat := if n % 3 = 1 then 16 else if n % 3 = 2 then 4 else 1

/-- Whether flipping bit `bit` of byte `i` of the segment `seg`, which encodes `n` bytes,
changes dropped bits only: byte `i` is the last one, and the byte before and after the flip
are characters of the alphabet whose values agree above the dropped bits. -/
def flipsDroppedBits (n : Nat) (seg : GoString) (i bit : Nat) : Bool :=
  i + 1 == seg.length &&
    match decodeSextet (seg.getD i 0), decodeSextet (seg.getD i 0 ^^^ (1 <<< bit)) with
    | some w, some v => v / keptDivisor n == w / keptDivisor n
    | _, _ => false

/-! ## A sample decoder environment -/

def sampleRSAPrivateKey : RSAPrivateKey := ⟨⟨3233, 17⟩, 2753⟩

def sampleECDSAPrivateKey : ECDSAPrivateKey := ⟨⟨256, 5, 1⟩, 7⟩

/-- A small stand-in for `encoding/pem` and `crypto/x509`, for instantiating statements about
the parsers: a PEM block is an input that starts with the BEGIN marker, the block bytes are
what follows it, and each decoder accepts the block whose first byte is its own tag. -/
def sampleX509 : X509 where
  pemDecode := fun data =>
    if data.take 11 = ascii "-----BEGIN " then some ⟨"", data.drop 11⟩ else none
  ParsePKCS1PrivateKey := fun der =>
    if der.head? = some 1 then .ok sampleRSAPrivateKey
    else .error (.external "x509: failed to parse PKCS1 private key")
  ParsePKCS8PrivateKey := fun der =>
    if der.head? = some 2 then .ok (.rsaPrivateKey sampleRSAPrivateKey)
    else if der.head? = some 3 then .ok (.ecdsaPrivateKey sampleECDSAPrivateKey)
    else if der.head? = some 4 then .ok (.other 0 der)
    else .error (.external "x509: failed to parse PKCS8 private key")
  ParseECPrivateKey := fun der =>
    if der.head? = some 5 then .ok sampleECDSAPrivateKey
    else .error (.external "x509: failed to parse EC private key")
  ParsePKIXPublicKey := fun der =>
    if der.head? = some 6 then .ok (.rsaPublicKey sampleRSAPrivateKey.PublicKey)
    else if der.head? = some 7 then .ok (.ecdsaPublicKey sampleECDSAPrivateKey.PublicKey)
    else .error (.external "x509: failed to parse PKIX public key")
  ParseCertificate := fun der =>
    if der.head? = some 8 then .ok ⟨.rsaPublicKey sampleRSAPrivateKey.PublicKey⟩
    else if der.head? = some 9 then .ok ⟨.ecdsaPublicKey sampleECDSAPrivateKey.PublicKey⟩
    else .error (.external "x509: malformed certificate")

/-! ## The registry of signing methods -/

/-- The interface `SigningMethod`, by its implementations: the HMAC methods of hmac.go, and
any other method, of which the name is kept. -/
inductive SigningMethod where
  /-- A `*SigningMethodHMAC`. -/
  | hmac (m : SigningMethodHMAC)
  /-- A method of another family. -/
  | other (alg : String)
deriving DecidableEq, Repr

/-- The method `Alg` of the interface. -/
def SigningMethod.Alg : SigningMethod → String
  | .hmac m => m.Alg
  | .other alg => alg

/-- The registry that hmac.go writes to, which is kept outside the four source files: its
state `R`, the package function `RegisterSigningMethod`, and the lookup of the factory
registered under a name. -/
structure RegistryOps (R : Type) where
  RegisterSigningMethod : String → (Unit → SigningMethod) → R → R
  lookup : R → String → Option (Unit → SigningMethod)

/-- The method `Register`: `RegisterSigningMethod(m.Name, func() SigningMethod { return m })`,
as a step on the state of the registry. -/
def SigningMethodHMAC.Register {R : Type} (ops : RegistryOps R) (m : SigningMethodHMAC)
    (reg : R) : R :=
  ops.RegisterSigningMethod m.Name (fun _ => .hmac m) reg

/-- The function `init` of hmac.go, as a step on the state of the registry: the three
instances are built and registered in turn. -/
def init {R : Type} (ops : RegistryOps R) (reg : R) : R :=
  let reg1 := SigningMethodHS256.Register ops reg
  let reg2 := SigningMethodHS384.Register ops reg1
  SigningMethodHS512.Register ops reg2

/-- Modelled from the spec: the registry, which is not in the four source files, as the map
from name to factory of the spec, where `register` is an "overwrite if name already exists
(last registration wins)" and `lookup` "returns nothing if unregistered". -/
def mapRegistry : RegistryOps (String → Option (Unit → SigningMethod)) where
  RegisterSigningMethod := fun alg f reg a => if a = alg then some f else reg a
  lookup := fun reg a => reg a

/-- The registry in which nothing is registered. -/
def emptyRegistry : String → Option (Unit → SigningMethod) := fun _ => none

/-! ## Sets of validation error flags -/

/-- The ten flag constants of errors.go, in the order of their declaration. -/
def validationErrorFlags : List Nat :=
  [ValidationErrorMalformed, ValidationErrorUnverifiable, ValidationErrorSignatureInvalid,
    ValidationErrorAudience, ValidationErrorExpired, ValidationErrorIssuedAt,
    ValidationErrorIssuer, ValidationErrorNotValidYet, ValidationErrorID,
    ValidationErrorClaimsInvalid]

/-- The flags of `T` or-ed one after the other into a `uint32` that starts at zero. -/
def orFlags (T : List Nat) : Nat := T.foldl (fun v f => (v ||| f) % 2 ^ 32) 0

/-! ## Decoder environments that differ in one decoder -/

/-- The environment `x` with another certificate decoder. -/
def X509.withParseCertificate (x : X509) (d : ByteSlice → Except Error Certificate) : X509 :=
  { x with ParseCertificate := d }

/-! ## Lemmas on the collaborators -/

set_option maxRecDepth 100000

theorem Value.assertBytes_of_ne_bytes {key : Value} (hk : ∀ b, key ≠ Value.bytes b) :
    key.assertBytes = ([], false) := by
  cases key <;> first | rfl | exact absurd rfl (hk _)

theorem Runtime.available_iff (rt : Runtime) (c : Nat) :
    rt.Available c = true ↔ ∃ h, rt.hashes c = some h := by
  unfold Runtime.Available
  cases rt.hashes c <;> simp

theorem Runtime.not_available_iff (rt : Runtime) (c : Nat) :
    rt.Available c = false ↔ rt.hashes c = none := by
  unfold Runtime.Available
  cases rt.hashes c <;> simp

theorem or_eq_zero_iff (a b : Nat) : a ||| b = 0 ↔ a = 0 ∧ b = 0 := by
  constructor
  · intro h
    constructor
    · apply Nat.eq_of_testBit_eq
      intro i
      have := congrArg (fun n => n.testBit i) h
      simp only [Nat.testBit_or, Nat.zero_testBit, Bool.or_eq_false_iff] at this
      simpa using this.1
    · apply Nat.eq_of_testBit_eq
      intro i
      have := congrArg (fun n => n.testBit i) h
      simp only [Nat.testBit_or, Nat.zero_testBit, Bool.or_eq_false_iff] at this
      simpa using this.2
  · rintro ⟨rfl, rfl⟩
    rfl

theorem foldl_or_eq_zero_iff (l : List Nat) (v : Nat) :
    l.foldl (fun v d => v ||| d) v = 0 ↔ v = 0 ∧ ∀ d ∈ l, d = 0 := by
  induction l generalizing v with
  | nil => simp
  | cons a l ih =>
    simp only [List.foldl_cons, ih, or_eq_zero_iff, List.mem_cons, forall_eq_or_imp]
    tauto

theorem zipWith_xor_all_zero_iff (x y : ByteSlice) (hlen : x.length = y.length) :
    (∀ d ∈ List.zipWith (fun a b => a ^^^ b) x y, d = 0) ↔ x = y := by
  induction x generalizing y with
  | nil =>
    cases y with
    | nil => simp
    | cons b y => simp at hlen
  | cons a x ih =>
    cases y with
    | nil => simp at hlen
    | cons b y =>
      simp only [List.length_cons, Nat.add_right_cancel_iff] at hlen
      simp only [List.zipWith_cons_cons, List.mem_cons, forall_eq_or_imp, Nat.xor_eq_zero,
        ih y hlen, List.cons.injEq]

/-- The comparison `hmac.Equal` holds exactly of equal byte strings. -/
theorem hmacEqual_iff (a b : ByteSlice) : hmacEqual a b = true ↔ a = b := by
  unfold hmacEqual constantTimeCompare
  by_cases hlen : a.length = b.length
  · simp only [ne_eq, hlen, not_true_eq_false, if_false, foldl_or_eq_zero_iff, true_and,
      zipWith_xor_all_zero_iff a b hlen]
    by_cases h : a = b <;> simp [h]
  · have hne : a ≠ b := fun h => hlen (by rw [h])
    simp [hlen, hne]

/-- Copying a key or the key followed by a zero byte into a zeroed block gives the same block,
when the key is shorter than the block. -/
theorem copyInto_append_zero (n : Nat) (key : ByteSlice) (hlen : key.length < n) :
    copyInto n (key ++ [0]) = copyInto n key := by
  unfold copyInto
  rw [List.take_of_length_le (by simp; omega), List.take_of_length_le (by omega)]
  have h : n - key.length = (n - (key ++ [0]).length) + 1 := by simp; omega
  rw [h, List.replicate_succ]
  simp

/-- The zero padding of `crypto/hmac`: a key shorter than the block and the same key followed
by a zero byte have the same MAC, for every hash function and message. -/
theorem hmacSum_append_zero (h : HashImpl) (key msg : ByteSlice)
    (hlen : key.length < h.blockSize) :
    hmacSum h (key ++ [0]) msg = hmacSum h key msg := by
  have h1 : ¬ (key ++ [0]).length > h.blockSize := by simp; omega
  have h2 : ¬ key.length > h.blockSize := by omega
  simp only [hmacSum, h1, h2, if_false, copyInto_append_zero _ _ hlen]

/-- The outcome of `Verify` with a byte-slice key and an available hash is decided by the
decoder and the comparison of MACs. -/
theorem SigningMethodHMAC.verify_bytes_eq (rt : Runtime) (m : SigningMethodHMAC) (h : HashImpl)
    (S sig : GoString) (K : ByteSlice) (havail : rt.hashes m.Hash = some h) :
    m.Verify rt S sig (.bytes K) =
      match rt.DecodeSegment sig with
      | (_, some err) => some err
      | (d, none) => if d = hmacSum h K S then none else some .ErrSignatureInvalid := by
  unfold SigningMethodHMAC.Verify
  simp only [Value.assertBytes]
  rcases hd : rt.DecodeSegment sig with ⟨d, _ | e⟩
  · simp only [havail]
    by_cases hc : d = hmacSum h K S
    · have ht : hmacEqual d (hmacSum h K S) = true := (hmacEqual_iff d (hmacSum h K S)).2 hc
      rw [ht]
      simp [hc]
    · have hf : hmacEqual d (hmacSum h K S) = false := by
        simpa using (hmacEqual_iff d (hmacSum h K S)).not.2 hc
      rw [hf]
      simp [hc]
  · rfl

/-- The outcome of `Sign` with a byte-slice key and an available hash. -/
theorem SigningMethodHMAC.sign_bytes_eq (rt : Runtime) (m : SigningMethodHMAC) (h : HashImpl)
    (S : GoString) (K : ByteSlice) (havail : rt.hashes m.Hash = some h) :
    m.Sign rt S (.bytes K) = (rt.EncodeSegment (hmacSum h K S), none) := by
  simp [SigningMethodHMAC.Sign, Value.assertBytes, havail]

/-! ## Lemmas on the base64url codec -/

theorem decodeSextet_encodeSextet (v : Nat) (hv : v < 64) :
    decodeSextet (encodeSextet v) = some v := by
  revert v
  decide

theorem sextetsOf_lt (b : ByteSlice) (hb : ∀ x ∈ b, x < 256) : ∀ v ∈ sextetsOf b, v < 64 := by
  induction b using sextetsOf.induct with
  | case1 a b c rest ih =>
    simp only [List.mem_cons, forall_eq_or_imp] at hb
    obtain ⟨ha, hb1, hc, hrest⟩ := hb
    simp only [sextetsOf, List.mem_cons, forall_eq_or_imp]
    exact ⟨by omega, by omega, by omega, by omega, ih hrest⟩
  | case2 a b =>
    simp only [List.mem_cons, forall_eq_or_imp] at hb
    simp only [sextetsOf, List.mem_cons, forall_eq_or_imp]
    exact ⟨by omega, by omega, by omega, by simp⟩
  | case3 a =>
    simp only [List.mem_cons, forall_eq_or_imp] at hb
    simp only [sextetsOf, List.mem_cons, forall_eq_or_imp]
    exact ⟨by omega, by omega, by simp⟩
  | case4 => simp [sextetsOf]

theorem decodeSextets_map_encodeSextet (vs : List Nat) (off : Nat) (hvs : ∀ v ∈ vs, v < 64) :
    decodeSextets off (vs.map encodeSextet) = .ok vs := by
  induction vs generalizing off with
  | nil => rfl
  | cons v vs ih =>
    simp only [List.mem_cons, forall_eq_or_imp] at hvs
    simp [decodeSextets, decodeSextet_encodeSextet v hvs.1, ih (off + 1) hvs.2]

theorem packSextets_sextetsOf (b : ByteSlice) (hb : ∀ x ∈ b, x < 256) :
    packSextets (sextetsOf b) = some b := by
  induction b using sextetsOf.induct with
  | case1 a b c rest ih =>
    simp only [List.mem_cons, forall_eq_or_imp] at hb
    obtain ⟨ha, hb1, hc, hrest⟩ := hb
    simp only [sextetsOf, packSextets, ih hrest, Option.map_some', Option.some.injEq,
      List.cons.injEq, and_true]
    omega
  | case2 a b =>
    simp only [List.mem_cons, forall_eq_or_imp] at hb
    simp only [sextetsOf, packSextets, Option.some.injEq, List.cons.injEq, and_true]
    omega
  | case3 a =>
    simp only [List.mem_cons, forall_eq_or_imp] at hb
    simp only [sextetsOf, packSextets, Option.some.injEq, List.cons.injEq, and_true]
    omega
  | case4 => rfl

/-- The base64url codec round-trips every string of bytes. -/
theorem DecodeSegment_EncodeSegment (b : ByteSlice) (hb : ∀ x ∈ b, x < 256) :
    DecodeSegment (EncodeSegment b) = (b, none) := by
  simp [DecodeSegment, EncodeSegment, decodeSextets_map_encodeSextet _ 0 (sextetsOf_lt b hb),
    packSextets_sextetsOf b hb]

theorem decodeSextet_eq_some {c v : Nat} (h : decodeSextet c = some v) :
    v < 64 ∧ encodeSextet v = c := by
  unfold decodeSextet at h
  simp only at h
  split at h
  · rename_i hlt
    simp only [Option.some.injEq] at h
    subst h
    refine ⟨hlt, ?_⟩
    have hlen : base64urlAlphabet.indexOf c < base64urlAlphabet.length := by
      have : base64urlAlphabet.length = 64 := by decide
      omega
    unfold encodeSextet
    rw [Nat.mod_eq_of_lt hlt, List.getD_eq_getElem _ _ hlen]
    exact List.getElem_indexOf hlen
  · simp at h

theorem encodeSextet_injective {v w : Nat} (hv : v < 64) (hw : w < 64)
    (h : encodeSextet v = encodeSextet w) : v = w := by
  have hd := decodeSextet_encodeSextet v hv
  rw [h, decodeSextet_encodeSextet w hw] at hd
  exact (Option.some.inj hd).symm

theorem xor_one_shiftLeft_ne (b bit : Nat) : b ^^^ (1 <<< bit) ≠ b := by
  intro hx
  have hx0 : b ^^^ 1 <<< bit = b ^^^ 0 := by simpa using hx
  have hz : 1 <<< bit = 0 := Nat.xor_right_injective hx0
  simp [Nat.shiftLeft_eq] at hz

theorem sextetsOf_length (b : ByteSlice) : (sextetsOf b).length = (4 * b.length + 2) / 3 := by
  induction b using sextetsOf.induct with
  | case1 a b c rest ih =>
    simp only [sextetsOf, List.length_cons, ih]
    omega
  | case2 a b => simp [sextetsOf]
  | case3 a => simp [sextetsOf]
  | case4 => simp [sextetsOf]

/-- Decoding the characters of a list of 6-bit values of which character `i` has been
replaced: the decoder stops at `i` when the new byte is outside the alphabet, and otherwise
gives the list with the value of the new character at `i`. -/
theorem decodeSextets_modify (vs : List Nat) (hvs : ∀ v ∈ vs, v < 64) (f : Nat → Nat)
    (i off : Nat) (hi : i < vs.length) :
    decodeSextets off ((vs.map encodeSextet).modify f i) =
      match decodeSextet (f (encodeSextet (vs.getD i 0))) with
      | none => .error (off + i)
      | some v => .ok (vs.set i v) := by
  induction vs generalizing i off with
  | nil => simp at hi
  | cons w vs ih =>
    simp only [List.mem_cons, forall_eq_or_imp] at hvs
    obtain ⟨hw, hvs⟩ := hvs
    cases i with
    | zero =>
      simp only [List.map_cons, List.modify_zero_cons, List.getD_cons_zero, List.set_cons_zero,
        Nat.add_zero, decodeSextets]
      cases hd : decodeSextet (f (encodeSextet w)) with
      | none => rfl
      | some v => simp [decodeSextets_map_encodeSextet vs (off + 1) hvs]
    | succ j =>
      have hj : j < vs.length := by
        simp only [List.length_cons] at hi
        omega
      rw [List.map_cons, List.modify_succ_cons, decodeSextets, decodeSextet_encodeSextet w hw]
      simp only [ih hvs j (off + 1) hj, List.getD_cons_succ, List.set_cons_succ]
      cases hd : decodeSextet (f (encodeSextet (vs.getD j 0))) with
      | none =>
        simp only [Except.error.injEq]
        omega
      | some v => rfl

theorem keptDivisor_add_three (n : Nat) : keptDivisor (n + 3) = keptDivisor n := by
  simp [keptDivisor]

/-- Replacing one 6-bit value of the values of a byte string: the values still pack to the
byte string exactly when the new value is the old one, or when it is the last value and
agrees with the old one above the dropped bits. -/
theorem packSextets_set_sextetsOf (b : ByteSlice) (hb : ∀ x ∈ b, x < 256) (i v : Nat)
    (hi : i < (sextetsOf b).length) (hv : v < 64) :
    packSextets ((sextetsOf b).set i v) = some b ↔
      (v = (sextetsOf b).getD i 0 ∨
        (i + 1 = (sextetsOf b).length ∧
          v / keptDivisor b.length = (sextetsOf b).getD i 0 / keptDivisor b.length)) := by
  induction b using sextetsOf.induct generalizing i with
  | case1 a b c rest ih =>
    simp only [List.mem_cons, forall_eq_or_imp] at hb
    obtain ⟨ha, hb1, hc, hrest⟩ := hb
    have hpack := packSextets_sextetsOf rest hrest
    have hlen := sextetsOf_length rest
    have hkd : keptDivisor (rest.length + 3) = keptDivisor rest.length :=
      keptDivisor_add_three rest.length
    rcases i with _ | _ | _ | _ | j
    · simp only [sextetsOf, List.set_cons_zero, packSextets, hpack, Option.map_some',
        Option.some.injEq, List.cons.injEq, and_true, List.getD_cons_zero, List.length_cons]
      omega
    · simp only [sextetsOf, List.set_cons_zero, List.set_cons_succ, packSextets, hpack,
        Option.map_some', Option.some.injEq, List.cons.injEq, and_true, List.getD_cons_zero,
        List.getD_cons_succ, List.length_cons]
      omega
    · simp only [sextetsOf, List.set_cons_zero, List.set_cons_succ, packSextets, hpack,
        Option.map_some', Option.some.injEq, List.cons.injEq, and_true, List.getD_cons_zero,
        List.getD_cons_succ, List.length_cons]
      omega
    · simp only [sextetsOf, List.set_cons_zero, List.set_cons_succ, packSextets, hpack,
        Option.map_some', Option.some.injEq, List.cons.injEq, and_true, List.getD_cons_zero,
        List.getD_cons_succ, List.length_cons, keptDivisor]
      split_ifs <;> omega
    · have hj : j < (sextetsOf rest).length := by
        simp only [sextetsOf, List.length_cons] at hi
        omega
      have hih := ih hrest j hj
      simp only [sextetsOf, List.set_cons_succ, packSextets, Option.map_eq_some',
        List.cons.injEq, List.getD_cons_succ, List.length_cons, hkd]
      constructor
      · rintro ⟨bs, hbs, -, -, -, rfl⟩
        rcases hih.1 hbs with h | ⟨h1, h2⟩
        · exact Or.inl h
        · exact Or.inr ⟨by omega, h2⟩
      · intro h
        have hp : packSextets ((sextetsOf rest).set j v) = some rest := by
          apply hih.2
          rcases h with h | ⟨h1, h2⟩
          · exact Or.inl h
          · exact Or.inr ⟨by omega, h2⟩
        exact ⟨rest, hp, by omega, by omega, by omega, rfl⟩
  | case2 a b =>
    simp only [List.mem_cons, forall_eq_or_imp] at hb
    obtain ⟨ha, hb1, -⟩ := hb
    have hkd : keptDivisor [a, b].length = 4 := by simp [keptDivisor]
    rw [hkd]
    rcases i with _ | _ | _ | j
    · simp only [sextetsOf, List.set_cons_zero, packSextets, Option.some.injEq,
        List.cons.injEq, and_true, List.getD_cons_zero, List.length_cons, List.length_nil]
      omega
    · simp only [sextetsOf, List.set_cons_zero, List.set_cons_succ, packSextets,
        Option.some.injEq, List.cons.injEq, and_true, List.getD_cons_zero,
        List.getD_cons_succ, List.length_cons, List.length_nil, true_and]
      omega
    · simp only [sextetsOf, List.set_cons_zero, List.set_cons_succ, packSextets,
        Option.some.injEq, List.cons.injEq, and_true, List.getD_cons_zero,
        List.getD_cons_succ, List.length_cons, List.length_nil, true_and]
      omega
    · simp only [sextetsOf, List.length_cons, List.length_nil] at hi
      omega
  | case3 a =>
    simp only [List.mem_cons, forall_eq_or_imp] at hb
    obtain ⟨ha, -⟩ := hb
    have hkd : keptDivisor [a].length = 16 := by simp [keptDivisor]
    rw [hkd]
    rcases i with _ | _ | j
    · simp only [sextetsOf, List.set_cons_zero, packSextets, Option.some.injEq,
        List.cons.injEq, and_true, List.getD_cons_zero, List.length_cons, List.length_nil]
      omega
    · simp only [sextetsOf, List.set_cons_zero, List.set_cons_succ, packSextets,
        Option.some.injEq, List.cons.injEq, and_true, List.getD_cons_zero,
        List.getD_cons_succ, List.length_cons, List.length_nil, true_and]
      omega
    · simp only [sextetsOf, List.length_cons, List.length_nil] at hi
      omega
  | case4 => simp [sextetsOf] at hi

theorem packSextets_isSome (l : List Nat) (hl : l.length % 4 ≠ 1) :
    ∃ bs, packSextets l = some bs := by
  induction l using packSextets.induct with
  | case1 a b c d rest ih =>
    have hrest : rest.length % 4 ≠ 1 := by
      simp only [List.length_cons] at hl
      omega
    obtain ⟨bs, hbs⟩ := ih hrest
    exact ⟨(a * 4 + b / 16) :: ((b % 16) * 16 + c / 4) :: ((c % 4) * 64 + d) :: bs,
      by simp [packSextets, hbs]⟩
  | case2 a b c => exact ⟨_, rfl⟩
  | case3 a b => exact ⟨_, rfl⟩
  | case4 a => simp at hl
  | case5 => exact ⟨_, rfl⟩

theorem getD_map_encodeSextet (vs : List Nat) (i : Nat) (hi : i < vs.length) :
    (vs.map encodeSextet).getD i 0 = encodeSextet (vs.getD i 0) := by
  rw [List.getD_eq_getElem _ _ (by simpa using hi), List.getD_eq_getElem _ _ hi,
    List.getElem_map]

theorem getD_sextetsOf_lt (b : ByteSlice) (hb : ∀ x ∈ b, x < 256) (i : Nat)
    (hi : i < (sextetsOf b).length) : (sextetsOf b).getD i 0 < 64 := by
  rw [List.getD_eq_getElem _ _ hi]
  exact sextetsOf_lt b hb _ (List.getElem_mem _)

/-- The decoding of the encoding of a byte string with one bit of its byte `i` flipped: the
decoder stops at `i` when the flipped byte is outside the alphabet, and otherwise packs the
6-bit values with the value of the flipped character at `i`. -/
theorem DecodeSegment_flipBit_EncodeSegment (b : ByteSlice) (hb : ∀ x ∈ b, x < 256)
    (i bit : Nat) (hi : i < (EncodeSegment b).length) :
    DecodeSegment (flipBit (EncodeSegment b) i bit) =
      match decodeSextet ((EncodeSegment b).getD i 0 ^^^ (1 <<< bit)) with
      | none => ([], some (.CorruptInputError i))
      | some v =>
        match packSextets ((sextetsOf b).set i v) with
        | none => ([], some (.CorruptInputError (EncodeSegment b).length))
        | some bs => (bs, none) := by
  have hi1 : i < (sextetsOf b).length := by simpa [EncodeSegment] using hi
  have hget : (EncodeSegment b).getD i 0 = encodeSextet ((sextetsOf b).getD i 0) :=
    getD_map_encodeSextet _ i hi1
  have hdec := decodeSextets_modify (sextetsOf b) (sextetsOf_lt b hb)
    (fun c => c ^^^ (1 <<< bit)) i 0 hi1
  simp only [Nat.zero_add] at hdec
  rw [hget]
  unfold DecodeSegment flipBit
  simp only [EncodeSegment, hdec, List.length_modify]
  cases decodeSextet (encodeSextet ((sextetsOf b).getD i 0) ^^^ 1 <<< bit) with
  | none => rfl
  | some v => rfl

theorem flipsDroppedBits_iff (n : Nat) (seg : GoString) (i bit w v : Nat)
    (horig : decodeSextet (seg.getD i 0) = some w)
    (hd : decodeSextet (seg.getD i 0 ^^^ (1 <<< bit)) = some v) :
    flipsDroppedBits n seg i bit = true ↔
      i + 1 = seg.length ∧ v / keptDivisor n = w / keptDivisor n := by
  unfold flipsDroppedBits
  rw [horig, hd]
  simp only [Bool.and_eq_true, beq_iff_eq]

theorem flipsDroppedBits_of_not_alphabet (n : Nat) (seg : GoString) (i bit : Nat)
    (hd : decodeSextet (seg.getD i 0 ^^^ (1 <<< bit)) = none) :
    flipsDroppedBits n seg i bit = false := by
  unfold flipsDroppedBits
  rw [hd]
  cases decodeSextet (seg.getD i 0) <;> simp

/-- The three outcomes of decoding the encoding of a byte string with one bit flipped. -/
theorem DecodeSegment_flipBit_outcomes (b : ByteSlice) (hb : ∀ x ∈ b, x < 256)
    (i bit : Nat) (hi : i < (EncodeSegment b).length) :
    (decodeSextet ((EncodeSegment b).getD i 0 ^^^ (1 <<< bit)) = none →
      DecodeSegment (flipBit (EncodeSegment b) i bit) = ([], some (.CorruptInputError i))) ∧
    (decodeSextet ((EncodeSegment b).getD i 0 ^^^ (1 <<< bit)) ≠ none →
      flipsDroppedBits b.length (EncodeSegment b) i bit = false →
      ∃ d, DecodeSegment (flipBit (EncodeSegment b) i bit) = (d, none) ∧ d ≠ b) ∧
    (flipsDroppedBits b.length (EncodeSegment b) i bit = true →
      DecodeSegment (flipBit (EncodeSegment b) i bit) = (b, none)) := by
  have hi1 : i < (sextetsOf b).length := by simpa [EncodeSegment] using hi
  have hlen : (EncodeSegment b).length = (sextetsOf b).length := by simp [EncodeSegment]
  have hget : (EncodeSegment b).getD i 0 = encodeSextet ((sextetsOf b).getD i 0) :=
    getD_map_encodeSextet _ i hi1
  have hw := getD_sextetsOf_lt b hb i hi1
  have horig : decodeSextet ((EncodeSegment b).getD i 0) = some ((sextetsOf b).getD i 0) := by
    rw [hget, decodeSextet_encodeSextet _ hw]
  rw [DecodeSegment_flipBit_EncodeSegment b hb i bit hi]
  refine ⟨?_, ?_, ?_⟩
  · intro hnone
    rw [hnone]
  · intro hsome hflip
    cases hd : decodeSextet ((EncodeSegment b).getD i 0 ^^^ (1 <<< bit)) with
    | none => exact absurd hd hsome
    | some v =>
      obtain ⟨hv, henc⟩ := decodeSextet_eq_some hd
      have hl : ((sextetsOf b).set i v).length % 4 ≠ 1 := by
        rw [List.length_set, sextetsOf_length]
        omega
      obtain ⟨bs, hbs⟩ := packSextets_isSome _ hl
      refine ⟨bs, by simp only [hbs], ?_⟩
      intro hbb
      subst hbb
      rcases (packSextets_set_sextetsOf bs hb i v hi1 hv).1 hbs with h | ⟨h1, h2⟩
      · rw [h, ← hget] at henc
        exact xor_one_shiftLeft_ne _ _ henc.symm
      · have ht := (flipsDroppedBits_iff bs.length (EncodeSegment bs) i bit _ v horig hd).2
          ⟨by omega, h2⟩
        rw [ht] at hflip
        exact Bool.noConfusion hflip
  · intro hflip
    cases hd : decodeSextet ((EncodeSegment b).getD i 0 ^^^ (1 <<< bit)) with
    | none =>
      rw [flipsDroppedBits_of_not_alphabet _ _ _ _ hd] at hflip
      exact Bool.noConfusion hflip
    | some v =>
      obtain ⟨hlast, hmatch⟩ :=
        (flipsDroppedBits_iff b.length (EncodeSegment b) i bit _ v horig hd).1 hflip
      obtain ⟨hv, -⟩ := decodeSextet_eq_some hd
      have hp := (packSextets_set_sextetsOf b hb i v hi1 hv).2
        (Or.inr ⟨by omega, hmatch⟩)
      simp only [hp]

/-! ## Lemmas on SHA-256 -/

theorem beBytes_lt (n x : Nat) : ∀ y ∈ beBytes n x, y < 256 := by
  induction n with
  | zero => simp [beBytes]
  | succ n ih =>
    intro y hy
    simp only [beBytes, List.mem_cons] at hy
    rcases hy with rfl | hy
    · exact Nat.mod_lt _ (by decide)
    · exact ih y hy

/-- A SHA-256 digest is a string of bytes. -/
theorem sha256_lt (msg : ByteSlice) : ∀ y ∈ sha256 msg, y < 256 := by
  intro y hy
  simp only [sha256, List.mem_flatMap] at hy
  obtain ⟨w, _, hw⟩ := hy
  exact beBytes_lt 4 w y hw

/-! ## The HMAC signing method -/

/-- C1. Round trip: for every HMAC signing method whose hash is available, every signing
string `S` and every byte-slice key `K`, `Sign(S, K)` returns `(sig, nil)` and
`Verify(S, sig, K)` returns nil, provided the segment codec decodes the encoded MAC back
to the MAC (the instance of `DecodeSegment(EncodeSegment(b)) = b` that is used). -/
theorem hmac_sign_verify_round_trip (rt : Runtime) (m : SigningMethodHMAC) (h : HashImpl)
    (S : GoString) (K : ByteSlice)
    (havail : rt.hashes m.Hash = some h)
    (hcodec : rt.DecodeSegment (rt.EncodeSegment (hmacSum h K S)) = (hmacSum h K S, none)) :
    ∃ sig, m.Sign rt S (.bytes K) = (sig, none) ∧ m.Verify rt S sig (.bytes K) = none := by
  refine ⟨rt.EncodeSegment (hmacSum h K S), m.sign_bytes_eq rt h S K havail, ?_⟩
  rw [m.verify_bytes_eq rt h S _ K havail, hcodec]
  simp

/-- C1 at HS256 with SHA-256 linked, S = "header.payload", K = "secret". -/
theorem hmac_sign_verify_round_trip_witness :
    sha256Runtime.hashes SigningMethodHS256.Hash = some sha256Impl ∧
    (∃ sig, SigningMethodHS256.Sign sha256Runtime (ascii "header.payload")
        (.bytes (ascii "secret")) = (sig, none) ∧
      SigningMethodHS256.Verify sha256Runtime (ascii "header.payload") sig
        (.bytes (ascii "secret")) = none) :=
  ⟨rfl, hmac_sign_verify_round_trip sha256Runtime SigningMethodHS256 sha256Impl
    (ascii "header.payload") (ascii "secret") rfl (by decide)⟩

/-- C2, as the code has it: for every HMAC signing method, signing string and key that is not
a byte slice, `Sign` returns the empty string and `ErrInvalidKey` carrying the key, which is
not the `ErrInvalidKeyType` that `Verify` returns for the same key. -/
theorem sign_non_byte_key_is_ErrInvalidKey (rt : Runtime) (m : SigningMethodHMAC)
    (S sig : GoString) (key : Value) (hk : ∀ b, key ≠ Value.bytes b) :
    m.Sign rt S key = ([], some (.ErrInvalidKey key)) ∧
    m.Verify rt S sig key = some (.ErrInvalidKeyType key) ∧
    (m.Sign rt S key).2 ≠ m.Verify rt S sig key := by
  have hs : m.Sign rt S key = ([], some (.ErrInvalidKey key)) := by
    simp [SigningMethodHMAC.Sign, Value.assertBytes_of_ne_bytes hk]
  have hv : m.Verify rt S sig key = some (.ErrInvalidKeyType key) := by
    simp [SigningMethodHMAC.Verify, Value.assertBytes_of_ne_bytes hk]
  refine ⟨hs, hv, ?_⟩
  rw [hs, hv]
  simp

/-- C2 at HS256, S = "header.payload", the integer key 42. -/
theorem sign_non_byte_key_is_ErrInvalidKey_witness :
    (∀ b, Value.int 42 ≠ Value.bytes b) ∧
    SigningMethodHS256.Sign sha256Runtime (ascii "header.payload") (.int 42)
      = ([], some (.ErrInvalidKey (.int 42))) ∧
    SigningMethodHS256.Verify sha256Runtime (ascii "header.payload") [] (.int 42)
      = some (.ErrInvalidKeyType (.int 42)) ∧
    (SigningMethodHS256.Sign sha256Runtime (ascii "header.payload") (.int 42)).2
      ≠ SigningMethodHS256.Verify sha256Runtime (ascii "header.payload") [] (.int 42) :=
  ⟨fun _ hb => Value.noConfusion hb,
    sign_non_byte_key_is_ErrInvalidKey sha256Runtime SigningMethodHS256
      (ascii "header.payload") [] (.int 42) (fun _ hb => Value.noConfusion hb)⟩

/-- C3. For every HMAC signing method and every key that is not a byte slice, `Verify` returns
`ErrInvalidKeyType` whose `Key()` is that key, for every signing string, every signature
string and every runtime (decoder and hash table): the key-type check comes first. -/
theorem verify_non_byte_key_is_ErrInvalidKeyType (rt : Runtime) (m : SigningMethodHMAC)
    (S sig : GoString) (key : Value) (hk : ∀ b, key ≠ Value.bytes b) :
    ∃ e, m.Verify rt S sig key = some e ∧ e = .ErrInvalidKeyType key ∧ e.Key = some key := by
  refine ⟨.ErrInvalidKeyType key, ?_, rfl, rfl⟩
  simp [SigningMethodHMAC.Verify, Value.assertBytes_of_ne_bytes hk]

/-- C3 at HS512 where SHA-512 is not linked, with the undecodable signature "!" and an RSA
private key as the key. -/
theorem verify_non_byte_key_is_ErrInvalidKeyType_witness :
    (∀ b, Value.rsaPrivateKey sampleRSAPrivateKey ≠ Value.bytes b) ∧
    ∃ e, SigningMethodHS512.Verify sha256Runtime (ascii "header.payload") (ascii "!")
        (.rsaPrivateKey sampleRSAPrivateKey) = some e ∧
      e = .ErrInvalidKeyType (.rsaPrivateKey sampleRSAPrivateKey) ∧
      e.Key = some (.rsaPrivateKey sampleRSAPrivateKey) :=
  ⟨fun _ hb => Value.noConfusion hb,
    verify_non_byte_key_is_ErrInvalidKeyType sha256Runtime SigningMethodHS512
      (ascii "header.payload") (ascii "!") (.rsaPrivateKey sampleRSAPrivateKey)
      (fun _ hb => Value.noConfusion hb)⟩

/-- C4 fails as stated: with SHA-512 not linked, `Sign` under HS512 fails with
`ErrHashUnavailable`, but `Verify` of the signature string "!" returns the decoder's
`CorruptInputError`, because the signature is decoded before the hash is looked up. -/
theorem verify_hash_unavailable_counterexample :
    sha256Runtime.Available SigningMethodHS512.Hash = false ∧
    SigningMethodHS512.Sign sha256Runtime (ascii "header.payload") (.bytes (ascii "secret"))
      = ([], some .ErrHashUnavailable) ∧
    SigningMethodHS512.Verify sha256Runtime (ascii "header.payload") (ascii "!")
      (.bytes (ascii "secret")) = some (.CorruptInputError 0) ∧
    SigningMethodHS512.Verify sha256Runtime (ascii "header.payload") (ascii "!")
      (.bytes (ascii "secret")) ≠ some .ErrHashUnavailable := by
  decide

/-- C4, amended: for every HMAC signing method whose hash is not available and every
byte-slice key, `Sign` fails with `ErrHashUnavailable`, `Verify` fails with
`ErrHashUnavailable` for every signature string that `DecodeSegment` decodes, and `Verify`
returns the decoder's error for a signature string that it does not decode. -/
theorem verify_hash_unavailable (rt : Runtime) (m : SigningMethodHMAC)
    (S sig : GoString) (K : ByteSlice) (hun : rt.Available m.Hash = false) :
    m.Sign rt S (.bytes K) = ([], some .ErrHashUnavailable) ∧
    (∀ d, rt.DecodeSegment sig = (d, none) →
      m.Verify rt S sig (.bytes K) = some .ErrHashUnavailable) ∧
    (∀ d e, rt.DecodeSegment sig = (d, some e) → m.Verify rt S sig (.bytes K) = some e) := by
  rw [Runtime.not_available_iff] at hun
  refine ⟨?_, ?_, ?_⟩
  · simp [SigningMethodHMAC.Sign, Value.assertBytes, hun]
  · intro d hd
    simp [SigningMethodHMAC.Verify, Value.assertBytes, hd, hun]
  · intro d e hd
    simp [SigningMethodHMAC.Verify, Value.assertBytes, hd]

/-- C4, amended, at HS512 where SHA-512 is not linked, with a decodable signature string. -/
theorem verify_hash_unavailable_witness :
    sha256Runtime.Available SigningMethodHS512.Hash = false ∧
    SigningMethodHS512.Sign sha256Runtime (ascii "header.payload") (.bytes (ascii "secret"))
      = ([], some .ErrHashUnavailable) ∧
    (∀ d, sha256Runtime.DecodeSegment (ascii "AAAA") = (d, none) →
      SigningMethodHS512.Verify sha256Runtime (ascii "header.payload") (ascii "AAAA")
        (.bytes (ascii "secret")) = some .ErrHashUnavailable) ∧
    (∀ d e, sha256Runtime.DecodeSegment (ascii "AAAA") = (d, some e) →
      SigningMethodHS512.Verify sha256Runtime (ascii "header.payload") (ascii "AAAA")
        (.bytes (ascii "secret")) = some e) :=
  ⟨by decide, verify_hash_unavailable sha256Runtime SigningMethodHS512
    (ascii "header.payload") (ascii "AAAA") (ascii "secret") (by decide)⟩

/-- C5. For every HMAC signing method with an available hash, byte-slice key `K`, signing
string `S` and signature string `sig`: if `DecodeSegment(sig)` fails with `e`, `Verify`
returns `e`; otherwise `Verify` returns nil if and only if the decoded bytes are the HMAC of
`S` under `K`, and `ErrSignatureInvalid` in every other case. -/
theorem verify_byte_key_characterised (rt : Runtime) (m : SigningMethodHMAC) (h : HashImpl)
    (S sig : GoString) (K : ByteSlice) (havail : rt.hashes m.Hash = some h) :
    (∀ d e, rt.DecodeSegment sig = (d, some e) → m.Verify rt S sig (.bytes K) = some e) ∧
    (∀ d, rt.DecodeSegment sig = (d, none) →
      (m.Verify rt S sig (.bytes K) = none ↔ d = hmacSum h K S) ∧
      (d ≠ hmacSum h K S → m.Verify rt S sig (.bytes K) = some .ErrSignatureInvalid)) := by
  rw [m.verify_bytes_eq rt h S sig K havail]
  refine ⟨?_, ?_⟩
  · intro d e hd
    simp [hd]
  · intro d hd
    by_cases hc : d = hmacSum h K S <;> simp [hd, hc]

/-- C5 at HS256 with SHA-256 linked, S = "header.payload", K = "secret", for the signature
string "AAAA". -/
theorem verify_byte_key_characterised_witness :
    sha256Runtime.hashes SigningMethodHS256.Hash = some sha256Impl ∧
    (∀ d e, sha256Runtime.DecodeSegment (ascii "AAAA") = (d, some e) →
      SigningMethodHS256.Verify sha256Runtime (ascii "header.payload") (ascii "AAAA")
        (.bytes (ascii "secret")) = some e) ∧
    (∀ d, sha256Runtime.DecodeSegment (ascii "AAAA") = (d, none) →
      (SigningMethodHS256.Verify sha256Runtime (ascii "header.payload") (ascii "AAAA")
        (.bytes (ascii "secret")) = none ↔
          d = hmacSum sha256Impl (ascii "secret") (ascii "header.payload")) ∧
      (d ≠ hmacSum sha256Impl (ascii "secret") (ascii "header.payload") →
        SigningMethodHS256.Verify sha256Runtime (ascii "header.payload") (ascii "AAAA")
          (.bytes (ascii "secret")) = some .ErrSignatureInvalid)) :=
  ⟨rfl, verify_byte_key_characterised sha256Runtime SigningMethodHS256 sha256Impl
    (ascii "header.payload") (ascii "AAAA") (ascii "secret") rfl⟩

/-- C6. For every HMAC signing method, signing string `S` and byte-slice key `K`: if the hash
is available, `Sign` returns `(EncodeSegment(HMAC(K, S)), nil)`; if it is not, `Sign` returns
the empty string and `ErrHashUnavailable`; `Sign` returns no other error. -/
theorem sign_byte_key_characterised (rt : Runtime) (m : SigningMethodHMAC)
    (S : GoString) (K : ByteSlice) :
    (rt.Available m.Hash = true →
      ∃ h, rt.hashes m.Hash = some h ∧
        m.Sign rt S (.bytes K) = (rt.EncodeSegment (hmacSum h K S), none)) ∧
    (rt.Available m.Hash = false → m.Sign rt S (.bytes K) = ([], some .ErrHashUnavailable)) ∧
    ((m.Sign rt S (.bytes K)).2 = none ∨
      (m.Sign rt S (.bytes K)).2 = some .ErrHashUnavailable) := by
  unfold Runtime.Available SigningMethodHMAC.Sign
  cases rt.hashes m.Hash <;> simp [Value.assertBytes]

/-- C7 fails as stated: under HS256 the keys "secret" and "secret" followed by a zero byte are
different, and the signature made with the first verifies under the second, because
`crypto/hmac` pads a short key with zero bytes to the block size. -/
theorem verify_wrong_key_counterexample :
    ascii "secret" ≠ ascii "secret" ++ [0] ∧
    SigningMethodHS256.Verify sha256Runtime (ascii "header.payload")
      (SigningMethodHS256.Sign sha256Runtime (ascii "header.payload")
        (.bytes (ascii "secret"))).1
      (.bytes (ascii "secret" ++ [0])) = none := by
  decide

/-- C7, amended: for every HMAC signing method with an available hash, every signing string
`S` and byte-slice keys `K1`, `K2` under which `S` has different HMACs,
`Verify(S, Sign(S, K1), K2)` fails with `ErrSignatureInvalid`, provided the segment codec
decodes the encoded MAC back to the MAC. -/
theorem verify_wrong_key (rt : Runtime) (m : SigningMethodHMAC) (h : HashImpl)
    (S : GoString) (K1 K2 : ByteSlice)
    (havail : rt.hashes m.Hash = some h)
    (hcodec : rt.DecodeSegment (rt.EncodeSegment (hmacSum h K1 S)) = (hmacSum h K1 S, none))
    (hmac : hmacSum h K1 S ≠ hmacSum h K2 S) :
    m.Verify rt S (m.Sign rt S (.bytes K1)).1 (.bytes K2) = some .ErrSignatureInvalid := by
  rw [m.sign_bytes_eq rt h S K1 havail, m.verify_bytes_eq rt h S _ K2 havail, hcodec]
  simp [hmac]

/-- C7, amended, at HS256 with S = "header.payload", K1 = "secret", K2 = "Secret". -/
theorem verify_wrong_key_witness :
    sha256Runtime.hashes SigningMethodHS256.Hash = some sha256Impl ∧
    hmacSum sha256Impl (ascii "secret") (ascii "header.payload")
      ≠ hmacSum sha256Impl (ascii "Secret") (ascii "header.payload") ∧
    SigningMethodHS256.Verify sha256Runtime (ascii "header.payload")
      (SigningMethodHS256.Sign sha256Runtime (ascii "header.payload")
        (.bytes (ascii "secret"))).1
      (.bytes (ascii "Secret")) = some .ErrSignatureInvalid :=
  ⟨rfl, by decide, verify_wrong_key sha256Runtime SigningMethodHS256 sha256Impl
    (ascii "header.payload") (ascii "secret") (ascii "Secret") rfl (by decide) (by decide)⟩

/-- C8 fails as stated, under HS256 with S = "header.payload". With K = "secret", flipping
the top bit of the first byte of the signature string makes `Verify` return the decoder's
`CorruptInputError`, not `ErrSignatureInvalid`: the flipped byte is outside the base64url
alphabet and the decode error is returned as it is. With K = "password" the signature string
ends in "4", and with the lowest bit of that byte flipped (it ends in "5") `Verify` returns
nil: the flipped bit is one that the decoder drops. -/
theorem verify_tampered_counterexample :
    (SigningMethodHS256.Sign sha256Runtime (ascii "header.payload")
      (.bytes (ascii "secret"))).2 = none ∧
    SigningMethodHS256.Verify sha256Runtime (ascii "header.payload")
      (flipBit (SigningMethodHS256.Sign sha256Runtime (ascii "header.payload")
        (.bytes (ascii "secret"))).1 0 7)
      (.bytes (ascii "secret")) = some (.CorruptInputError 0) ∧
    SigningMethodHS256.Verify sha256Runtime (ascii "header.payload")
      (flipBit (SigningMethodHS256.Sign sha256Runtime (ascii "header.payload")
        (.bytes (ascii "secret"))).1 0 7)
      (.bytes (ascii "secret")) ≠ some .ErrSignatureInvalid ∧
    SigningMethodHS256.Sign sha256Runtime (ascii "header.payload") (.bytes (ascii "password"))
      = (ascii "l6r7yvgXIflB_CYyUggkzN8ltjMIujNn5o6UUkDVPY4", none) ∧
    flipBit (ascii "l6r7yvgXIflB_CYyUggkzN8ltjMIujNn5o6UUkDVPY4") 42 0
      = ascii "l6r7yvgXIflB_CYyUggkzN8ltjMIujNn5o6UUkDVPY5" ∧
    SigningMethodHS256.Verify sha256Runtime (ascii "header.payload")
      (ascii "l6r7yvgXIflB_CYyUggkzN8ltjMIujNn5o6UUkDVPY5") (.bytes (ascii "password"))
      = none := by
  decide

/-- C8, amended, with the base64url segment codec: for every HMAC signing method with an
available hash whose MAC is a string of bytes, every signing string `S` and byte-slice key
`K`, let `sig` be the signature string of `Sign(S, K)` and flip bit `bit` of its byte `i`.
If the flipped byte is not a character of the base64url alphabet, `Verify` fails with the
decoder's `CorruptInputError` at `i`. If it is one, `Verify` fails with
`ErrSignatureInvalid`, unless the flip changes dropped bits only (it is in the last
character and leaves its value the same above the bits that reach no byte of the MAC), in
which case `Verify` returns nil. -/
theorem verify_tampered (hashes : Nat → Option HashImpl) (m : SigningMethodHMAC)
    (h : HashImpl) (S sig : GoString) (K : ByteSlice) (i bit : Nat)
    (havail : hashes m.Hash = some h)
    (hbytes : ∀ x ∈ hmacSum h K S, x < 256)
    (hsign : m.Sign (base64urlRuntime hashes) S (.bytes K) = (sig, none))
    (hi : i < sig.length) :
    (decodeSextet (sig.getD i 0 ^^^ (1 <<< bit)) = none →
      m.Verify (base64urlRuntime hashes) S (flipBit sig i bit) (.bytes K)
        = some (.CorruptInputError i)) ∧
    (decodeSextet (sig.getD i 0 ^^^ (1 <<< bit)) ≠ none →
      flipsDroppedBits (hmacSum h K S).length sig i bit = false →
      m.Verify (base64urlRuntime hashes) S (flipBit sig i bit) (.bytes K)
        = some .ErrSignatureInvalid) ∧
    (flipsDroppedBits (hmacSum h K S).length sig i bit = true →
      m.Verify (base64urlRuntime hashes) S (flipBit sig i bit) (.bytes K) = none) := by
  have hsig : sig = EncodeSegment (hmacSum h K S) := by
    rw [m.sign_bytes_eq (base64urlRuntime hashes) h S K havail] at hsign
    exact (congrArg Prod.fst hsign).symm
  subst hsig
  obtain ⟨hout1, hout2, hout3⟩ := DecodeSegment_flipBit_outcomes (hmacSum h K S) hbytes i bit hi
  have hv : m.Verify (base64urlRuntime hashes) S
      (flipBit (EncodeSegment (hmacSum h K S)) i bit) (.bytes K) =
      match DecodeSegment (flipBit (EncodeSegment (hmacSum h K S)) i bit) with
      | (_, some err) => some err
      | (d, none) => if d = hmacSum h K S then none else some .ErrSignatureInvalid :=
    m.verify_bytes_eq (base64urlRuntime hashes) h S
      (flipBit (EncodeSegment (hmacSum h K S)) i bit) K havail
  refine ⟨?_, ?_, ?_⟩
  · intro hnone
    rw [hv, hout1 hnone]
  · intro hsome hflip
    obtain ⟨d, hd, hne⟩ := hout2 hsome hflip
    rw [hv, hd]
    simp [hne]
  · intro hflip
    rw [hv, hout3 hflip]
    simp

/-- C8, amended, under HS256 with S = "header.payload". With K = "secret": the top bit of the
first byte of the signature string, which leaves the alphabet, and the lowest bit of its
second byte, which turns "6" into "7". With K = "password": the lowest bit of the last
byte, a dropped bit. -/
theorem verify_tampered_witness :
    SigningMethodHS256.Sign sha256Runtime (ascii "header.payload") (.bytes (ascii "secret"))
      = (ascii "Z6i9S6ZA2aIWif9sETeqAT86NRYSiUvBz2wzPI7aP0s", none) ∧
    SigningMethodHS256.Verify sha256Runtime (ascii "header.payload")
      (flipBit (ascii "Z6i9S6ZA2aIWif9sETeqAT86NRYSiUvBz2wzPI7aP0s") 0 7)
      (.bytes (ascii "secret")) = some (.CorruptInputError 0) ∧
    flipBit (ascii "Z6i9S6ZA2aIWif9sETeqAT86NRYSiUvBz2wzPI7aP0s") 1 0
      = ascii "Z7i9S6ZA2aIWif9sETeqAT86NRYSiUvBz2wzPI7aP0s" ∧
    SigningMethodHS256.Verify sha256Runtime (ascii "header.payload")
      (flipBit (ascii "Z6i9S6ZA2aIWif9sETeqAT86NRYSiUvBz2wzPI7aP0s") 1 0)
      (.bytes (ascii "secret")) = some .ErrSignatureInvalid ∧
    SigningMethodHS256.Sign sha256Runtime (ascii "header.payload") (.bytes (ascii "password"))
      = (ascii "l6r7yvgXIflB_CYyUggkzN8ltjMIujNn5o6UUkDVPY4", none) ∧
    flipsDroppedBits 32 (ascii "l6r7yvgXIflB_CYyUggkzN8ltjMIujNn5o6UUkDVPY4") 42 0 = true ∧
    SigningMethodHS256.Verify sha256Runtime (ascii "header.payload")
      (flipBit (ascii "l6r7yvgXIflB_CYyUggkzN8ltjMIujNn5o6UUkDVPY4") 42 0)
      (.bytes (ascii "password")) = none :=
  ⟨by decide,
    (verify_tampered _ SigningMethodHS256 sha256Impl (ascii "header.payload")
      (ascii "Z6i9S6ZA2aIWif9sETeqAT86NRYSiUvBz2wzPI7aP0s") (ascii "secret") 0 7
      (by rfl) (sha256_lt _) (by decide) (by decide)).1 (by decide),
    by decide,
    (verify_tampered _ SigningMethodHS256 sha256Impl (ascii "header.payload")
      (ascii "Z6i9S6ZA2aIWif9sETeqAT86NRYSiUvBz2wzPI7aP0s") (ascii "secret") 1 0
      (by rfl) (sha256_lt _) (by decide) (by decide)).2.1 (by decide) (by decide),
    by decide,
    by decide,
    (verify_tampered _ SigningMethodHS256 sha256Impl (ascii "header.payload")
      (ascii "l6r7yvgXIflB_CYyUggkzN8ltjMIujNn5o6UUkDVPY4") (ascii "password") 42 0
      (by rfl) (sha256_lt _) (by decide) (by decide)).2.2 (by decide)⟩

/-! ## The HMAC signing method with the base64url codec -/

/-- Round trip with the base64url codec: when the hash is available and its MAC is a string
of bytes, the signature that `Sign` makes verifies, with no assumption left on the codec. -/
theorem base64url_sign_verify_round_trip (hashes : Nat → Option HashImpl)
    (m : SigningMethodHMAC) (h : HashImpl) (S : GoString) (K : ByteSlice)
    (havail : hashes m.Hash = some h) (hbytes : ∀ x ∈ hmacSum h K S, x < 256) :
    m.Verify (base64urlRuntime hashes) S
      (m.Sign (base64urlRuntime hashes) S (.bytes K)).1 (.bytes K) = none := by
  rw [m.sign_bytes_eq (base64urlRuntime hashes) h S K havail,
    m.verify_bytes_eq (base64urlRuntime hashes) h S _ K havail]
  simp only [base64urlRuntime, DecodeSegment_EncodeSegment _ hbytes]
  simp

/-- Round trip under HS256 with SHA-256 linked, for every signing string and key. -/
theorem hs256_sign_verify_round_trip (S : GoString) (K : ByteSlice) :
    SigningMethodHS256.Verify sha256Runtime S
      (SigningMethodHS256.Sign sha256Runtime S (.bytes K)).1 (.bytes K) = none :=
  base64url_sign_verify_round_trip _ SigningMethodHS256 sha256Impl S K rfl
    (sha256_lt _)

/-! ## The key parsers -/

/-- C9. PEM framing: for every input in which `pem.Decode` finds no PEM block, each of the four
parsers returns a nil key and `ErrKeyNotPEMEncoded` whose `Key()` is the input bytes,
whatever the PKCS1, PKCS8, SEC1, PKIX and certificate decoders of the environment are. -/
theorem parse_non_pem_is_ErrKeyNotPEMEncoded (x : X509) (key : ByteSlice)
    (hpem : x.pemDecode key = none) :
    ParseRSAPrivateKeyFromPEM x key = (none, some (.ErrKeyNotPEMEncoded (.bytes key))) ∧
    ParseRSAPublicKeyFromPEM x key = (none, some (.ErrKeyNotPEMEncoded (.bytes key))) ∧
    ParseECPrivateKeyFromPEM x key = (none, some (.ErrKeyNotPEMEncoded (.bytes key))) ∧
    ParseECPublicKeyFromPEM x key = (none, some (.ErrKeyNotPEMEncoded (.bytes key))) ∧
    (Error.ErrKeyNotPEMEncoded (.bytes key)).Key = some (.bytes key) := by
  refine ⟨?_, ?_, ?_, ?_, rfl⟩
  · simp [ParseRSAPrivateKeyFromPEM, hpem]
  · simp [ParseRSAPublicKeyFromPEM, hpem]
  · simp [ParseECPrivateKeyFromPEM, hpem]
  · simp [ParseECPublicKeyFromPEM, hpem]

/-- C9 at the empty input. -/
theorem parse_non_pem_is_ErrKeyNotPEMEncoded_witness :
    sampleX509.pemDecode [] = none ∧
    ParseRSAPrivateKeyFromPEM sampleX509 [] = (none, some (.ErrKeyNotPEMEncoded (.bytes []))) ∧
    ParseRSAPublicKeyFromPEM sampleX509 [] = (none, some (.ErrKeyNotPEMEncoded (.bytes []))) ∧
    ParseECPrivateKeyFromPEM sampleX509 [] = (none, some (.ErrKeyNotPEMEncoded (.bytes []))) ∧
    ParseECPublicKeyFromPEM sampleX509 [] = (none, some (.ErrKeyNotPEMEncoded (.bytes []))) ∧
    (Error.ErrKeyNotPEMEncoded (.bytes [])).Key = some (.bytes []) :=
  ⟨rfl, parse_non_pem_is_ErrKeyNotPEMEncoded sampleX509 [] rfl⟩

/-- C10 fails as stated: on a PEM block that the PKIX decoder rejects with one error and the
certificate decoder rejects with another, both public-key parsers return the certificate
decoder's error, not the PKIX decoder's. -/
theorem parse_public_key_both_fail_counterexample :
    sampleX509.pemDecode (ascii "-----BEGIN " ++ [0]) = some ⟨"", [0]⟩ ∧
    sampleX509.ParsePKIXPublicKey [0]
      = .error (.external "x509: failed to parse PKIX public key") ∧
    sampleX509.ParseCertificate [0] = .error (.external "x509: malformed certificate") ∧
    ParseRSAPublicKeyFromPEM sampleX509 (ascii "-----BEGIN " ++ [0])
      = (none, some (.external "x509: malformed certificate")) ∧
    ParseRSAPublicKeyFromPEM sampleX509 (ascii "-----BEGIN " ++ [0])
      ≠ (none, some (.external "x509: failed to parse PKIX public key")) ∧
    ParseECPublicKeyFromPEM sampleX509 (ascii "-----BEGIN " ++ [0])
      = (none, some (.external "x509: malformed certificate")) ∧
    ParseECPublicKeyFromPEM sampleX509 (ascii "-----BEGIN " ++ [0])
      ≠ (none, some (.external "x509: failed to parse PKIX public key")) :=
  ⟨rfl, rfl, rfl, rfl, by decide, rfl, by decide⟩

/-- C10, amended: for `ParseRSAPublicKeyFromPEM` and `ParseECPublicKeyFromPEM` and every PEM
input whose block is rejected by the PKIX public-key decoder and by the X.509 certificate
decoder, with error `e_cert`, the parser returns a nil key and `e_cert`: the error of the
last attempt is the one returned, whatever the PKIX error was. -/
theorem parse_public_key_both_fail (x : X509) (key : ByteSlice) (block : PemBlock)
    (e_pkix e_cert : Error)
    (hpem : x.pemDecode key = some block)
    (hpkix : x.ParsePKIXPublicKey block.Bytes = .error e_pkix)
    (hcert : x.ParseCertificate block.Bytes = .error e_cert) :
    ParseRSAPublicKeyFromPEM x key = (none, some e_cert) ∧
    ParseECPublicKeyFromPEM x key = (none, some e_cert) := by
  constructor
  · simp [ParseRSAPublicKeyFromPEM, hpem, hpkix, hcert]
  · simp [ParseECPublicKeyFromPEM, hpem, hpkix, hcert]

/-- C10, amended, at a block that both decoders of the sample environment reject. -/
theorem parse_public_key_both_fail_witness :
    sampleX509.pemDecode (ascii "-----BEGIN " ++ [0]) = some ⟨"", [0]⟩ ∧
    sampleX509.ParsePKIXPublicKey [0]
      = .error (.external "x509: failed to parse PKIX public key") ∧
    sampleX509.ParseCertificate [0] = .error (.external "x509: malformed certificate") ∧
    ParseRSAPublicKeyFromPEM sampleX509 (ascii "-----BEGIN " ++ [0])
      = (none, some (.external "x509: malformed certificate")) ∧
    ParseECPublicKeyFromPEM sampleX509 (ascii "-----BEGIN " ++ [0])
      = (none, some (.external "x509: malformed certificate")) :=
  ⟨rfl, rfl, rfl, parse_public_key_both_fail sampleX509 (ascii "-----BEGIN " ++ [0]) ⟨"", [0]⟩
    (.external "x509: failed to parse PKIX public key")
    (.external "x509: malformed certificate") rfl rfl rfl⟩

/-! ## The key parsers: decoded keys -/

/-- C11. Certificate fallback: on a PEM input whose block fails PKIX decoding and parses as a
certificate whose public key is an RSA (or ECDSA) public key, the RSA (or EC) public-key
parser returns that key and a nil error; and when PKIX decoding succeeds, the result is the
same whatever the certificate decoder is. -/
theorem parse_public_key_certificate_fallback (x : X509) (key : ByteSlice) (block : PemBlock)
    (hpem : x.pemDecode key = some block) :
    (∀ e cert k, x.ParsePKIXPublicKey block.Bytes = .error e →
      x.ParseCertificate block.Bytes = .ok cert → cert.PublicKey = .rsaPublicKey k →
      ParseRSAPublicKeyFromPEM x key = (some k, none)) ∧
    (∀ e cert k, x.ParsePKIXPublicKey block.Bytes = .error e →
      x.ParseCertificate block.Bytes = .ok cert → cert.PublicKey = .ecdsaPublicKey k →
      ParseECPublicKeyFromPEM x key = (some k, none)) ∧
    (∀ v d, x.ParsePKIXPublicKey block.Bytes = .ok v →
      ParseRSAPublicKeyFromPEM (x.withParseCertificate d) key = ParseRSAPublicKeyFromPEM x key ∧
      ParseECPublicKeyFromPEM (x.withParseCertificate d) key = ParseECPublicKeyFromPEM x key) := by
  refine ⟨?_, ?_, ?_⟩
  · intro e cert k hpkix hcert hk
    simp [ParseRSAPublicKeyFromPEM, hpem, hpkix, hcert, hk, Value.assertRSAPublicKey]
  · intro e cert k hpkix hcert hk
    simp [ParseECPublicKeyFromPEM, hpem, hpkix, hcert, hk, Value.assertECDSAPublicKey]
  · intro v d hpkix
    simp [ParseRSAPublicKeyFromPEM, ParseECPublicKeyFromPEM, X509.withParseCertificate, hpem,
      hpkix]

/-- C11 at blocks that parse as a certificate with an RSA and with an ECDSA public key. -/
theorem parse_public_key_certificate_fallback_witness :
    sampleX509.pemDecode (ascii "-----BEGIN " ++ [8]) = some ⟨"", [8]⟩ ∧
    sampleX509.ParsePKIXPublicKey [8]
      = .error (.external "x509: failed to parse PKIX public key") ∧
    sampleX509.ParseCertificate [8] = .ok ⟨.rsaPublicKey sampleRSAPrivateKey.PublicKey⟩ ∧
    ParseRSAPublicKeyFromPEM sampleX509 (ascii "-----BEGIN " ++ [8])
      = (some sampleRSAPrivateKey.PublicKey, none) ∧
    sampleX509.ParseCertificate [9] = .ok ⟨.ecdsaPublicKey sampleECDSAPrivateKey.PublicKey⟩ ∧
    ParseECPublicKeyFromPEM sampleX509 (ascii "-----BEGIN " ++ [9])
      = (some sampleECDSAPrivateKey.PublicKey, none) :=
  ⟨rfl, rfl, rfl,
    (parse_public_key_certificate_fallback sampleX509 (ascii "-----BEGIN " ++ [8]) ⟨"", [8]⟩
      (by rfl)).1 _ _ _ (by rfl) (by rfl) (by rfl),
    rfl,
    (parse_public_key_certificate_fallback sampleX509 (ascii "-----BEGIN " ++ [9]) ⟨"", [9]⟩
      (by rfl)).2.1 (.external "x509: failed to parse PKIX public key") _ _
      (by rfl) (by rfl) (by rfl)⟩

/-- C12, as the code has it: on a PEM input whose candidate key `v`, from PKIX decoding or
from the certificate fallback, is not an ECDSA public key, the EC parser fails with
`ErrNotECKey` with `public` set, carrying `v`; when `v` is not an RSA public key, the RSA
parser fails with `ErrNotRSAPublicKey` carrying the input bytes `key`, not `v`. -/
theorem parse_public_key_family_mismatch (x : X509) (key : ByteSlice) (block : PemBlock)
    (v : Value) (hpem : x.pemDecode key = some block)
    (hcand : x.ParsePKIXPublicKey block.Bytes = .ok v ∨
      ∃ e cert, x.ParsePKIXPublicKey block.Bytes = .error e ∧
        x.ParseCertificate block.Bytes = .ok cert ∧ cert.PublicKey = v) :
    ((∀ k, v ≠ .ecdsaPublicKey k) →
      ParseECPublicKeyFromPEM x key = (none, some (.ErrNotECKey true v)) ∧
      (Error.ErrNotECKey true v).Key = some v) ∧
    ((∀ k, v ≠ .rsaPublicKey k) →
      ParseRSAPublicKeyFromPEM x key = (none, some (.ErrNotRSAPublicKey (.bytes key))) ∧
      (Error.ErrNotRSAPublicKey (.bytes key)).Key = some (.bytes key)) := by
  have hec : (∀ k, v ≠ .ecdsaPublicKey k) → v.assertECDSAPublicKey = (none, false) := by
    intro hv
    cases v <;> first | rfl | exact absurd rfl (hv _)
  have hrsa : (∀ k, v ≠ .rsaPublicKey k) → v.assertRSAPublicKey = (none, false) := by
    intro hv
    cases v <;> first | rfl | exact absurd rfl (hv _)
  rcases hcand with hpkix | ⟨e, cert, hpkix, hcert, hv⟩
  · constructor
    · intro hne
      simp [ParseECPublicKeyFromPEM, hpem, hpkix, hec hne, ErrNotECPublicKey, Error.Key]
    · intro hne
      simp [ParseRSAPublicKeyFromPEM, hpem, hpkix, hrsa hne, Error.Key]
  · subst hv
    constructor
    · intro hne
      simp [ParseECPublicKeyFromPEM, hpem, hpkix, hcert, hec hne, ErrNotECPublicKey, Error.Key]
    · intro hne
      simp [ParseRSAPublicKeyFromPEM, hpem, hpkix, hcert, hrsa hne, Error.Key]

/-- C12 at a PKIX block of an ECDSA public key, given to the RSA parser: the error carries the
input bytes, which are not the decoded key. -/
theorem parse_public_key_family_mismatch_witness :
    sampleX509.pemDecode (ascii "-----BEGIN " ++ [7]) = some ⟨"", [7]⟩ ∧
    sampleX509.ParsePKIXPublicKey [7] = .ok (.ecdsaPublicKey sampleECDSAPrivateKey.PublicKey) ∧
    (ParseRSAPublicKeyFromPEM sampleX509 (ascii "-----BEGIN " ++ [7])
        = (none, some (.ErrNotRSAPublicKey (.bytes (ascii "-----BEGIN " ++ [7])))) ∧
      (Error.ErrNotRSAPublicKey (.bytes (ascii "-----BEGIN " ++ [7]))).Key
        = some (.bytes (ascii "-----BEGIN " ++ [7]))) ∧
    Value.bytes (ascii "-----BEGIN " ++ [7])
      ≠ Value.ecdsaPublicKey sampleECDSAPrivateKey.PublicKey :=
  ⟨rfl, rfl,
    (parse_public_key_family_mismatch sampleX509 (ascii "-----BEGIN " ++ [7]) ⟨"", [7]⟩
      (.ecdsaPublicKey sampleECDSAPrivateKey.PublicKey) (by rfl) (Or.inl (by rfl))).2
      (fun _ hk => Value.noConfusion hk),
    fun hk => Value.noConfusion hk⟩

/-- C13. On a PEM input whose block fails PKCS1 decoding and decodes as a PKCS8 private key
`v`: if `v` is an RSA private key `k`, `ParseRSAPrivateKeyFromPEM` returns `(k, nil)`;
otherwise it returns a nil key and `ErrNotRSAPrivateKey` whose `Key()` is `v`. -/
theorem parse_rsa_private_key_pkcs8 (x : X509) (key : ByteSlice) (block : PemBlock)
    (e : Error) (v : Value) (hpem : x.pemDecode key = some block)
    (hpkcs1 : x.ParsePKCS1PrivateKey block.Bytes = .error e)
    (hpkcs8 : x.ParsePKCS8PrivateKey block.Bytes = .ok v) :
    (∀ k, v = .rsaPrivateKey k → ParseRSAPrivateKeyFromPEM x key = (some k, none)) ∧
    ((∀ k, v ≠ .rsaPrivateKey k) →
      ParseRSAPrivateKeyFromPEM x key = (none, some (.ErrNotRSAPrivateKey v)) ∧
      (Error.ErrNotRSAPrivateKey v).Key = some v) := by
  constructor
  · intro k hk
    simp [ParseRSAPrivateKeyFromPEM, hpem, hpkcs1, hpkcs8, hk, Value.assertRSAPrivateKey]
  · intro hne
    have hrsa : v.assertRSAPrivateKey = (none, false) := by
      cases v <;> first | rfl | exact absurd rfl (hne _)
    simp [ParseRSAPrivateKeyFromPEM, hpem, hpkcs1, hpkcs8, hrsa, Error.Key]

/-- C13 at a PKCS8 block of an ECDSA private key. -/
theorem parse_rsa_private_key_pkcs8_witness :
    sampleX509.pemDecode (ascii "-----BEGIN " ++ [3]) = some ⟨"", [3]⟩ ∧
    sampleX509.ParsePKCS1PrivateKey [3]
      = .error (.external "x509: failed to parse PKCS1 private key") ∧
    sampleX509.ParsePKCS8PrivateKey [3] = .ok (.ecdsaPrivateKey sampleECDSAPrivateKey) ∧
    ParseRSAPrivateKeyFromPEM sampleX509 (ascii "-----BEGIN " ++ [3])
      = (none, some (.ErrNotRSAPrivateKey (.ecdsaPrivateKey sampleECDSAPrivateKey))) ∧
    (Error.ErrNotRSAPrivateKey (.ecdsaPrivateKey sampleECDSAPrivateKey)).Key
      = some (.ecdsaPrivateKey sampleECDSAPrivateKey) :=
  ⟨rfl, rfl, rfl,
    (parse_rsa_private_key_pkcs8 sampleX509 (ascii "-----BEGIN " ++ [3]) ⟨"", [3]⟩
      (.external "x509: failed to parse PKCS1 private key")
      (.ecdsaPrivateKey sampleECDSAPrivateKey) (by rfl) (by rfl) (by rfl)).2
      (fun _ hk => Value.noConfusion hk)⟩

/-- C14 fails as stated: the block [2] is a PKCS8 encoding of an RSA private key for the
sample decoders, and `ParseECPrivateKeyFromPEM` returns the error of the SEC1 decoder on it,
not `ErrNotECKey` carrying the RSA key: the EC parser does not consult the PKCS8 decoder. -/
theorem parse_ec_private_key_pkcs8_counterexample :
    sampleX509.pemDecode (ascii "-----BEGIN " ++ [2]) = some ⟨"", [2]⟩ ∧
    sampleX509.ParsePKCS8PrivateKey [2] = .ok (.rsaPrivateKey sampleRSAPrivateKey) ∧
    ParseECPrivateKeyFromPEM sampleX509 (ascii "-----BEGIN " ++ [2])
      = (none, some (.external "x509: failed to parse EC private key")) ∧
    ParseECPrivateKeyFromPEM sampleX509 (ascii "-----BEGIN " ++ [2])
      ≠ (none, some (ErrNotECPrivateKey (.rsaPrivateKey sampleRSAPrivateKey))) :=
  ⟨rfl, rfl, rfl, by decide⟩

/-- C14, amended: on a PEM input whose block is a PKCS8 encoding of a private key `v` of
another family, and which the SEC1 decoder `x509.ParseECPrivateKey` rejects with the error
`e`, `ParseECPrivateKeyFromPEM` returns a nil key and `e`. -/
theorem parse_ec_private_key_pkcs8 (x : X509) (key : ByteSlice) (block : PemBlock)
    (e : Error) (v : Value) (hpem : x.pemDecode key = some block)
    (_hpkcs8 : x.ParsePKCS8PrivateKey block.Bytes = .ok v)
    (_hv : ∀ k, v ≠ .ecdsaPrivateKey k)
    (hsec1 : x.ParseECPrivateKey block.Bytes = .error e) :
    ParseECPrivateKeyFromPEM x key = (none, some e) := by
  simp [ParseECPrivateKeyFromPEM, hpem, hsec1]

/-- C14, amended, at a PKCS8 block of an RSA private key. -/
theorem parse_ec_private_key_pkcs8_witness :
    sampleX509.pemDecode (ascii "-----BEGIN " ++ [2]) = some ⟨"", [2]⟩ ∧
    sampleX509.ParsePKCS8PrivateKey [2] = .ok (.rsaPrivateKey sampleRSAPrivateKey) ∧
    sampleX509.ParseECPrivateKey [2]
      = .error (.external "x509: failed to parse EC private key") ∧
    ParseECPrivateKeyFromPEM sampleX509 (ascii "-----BEGIN " ++ [2])
      = (none, some (.external "x509: failed to parse EC private key")) :=
  ⟨rfl, rfl, rfl,
    parse_ec_private_key_pkcs8 sampleX509 (ascii "-----BEGIN " ++ [2]) ⟨"", [2]⟩
      (.external "x509: failed to parse EC private key") (.rsaPrivateKey sampleRSAPrivateKey)
      (by rfl) (by rfl) (fun _ hk => Value.noConfusion hk) (by rfl)⟩

/-- C15. On a PEM input on which all private-key decoders fail, the parser returns a nil key
and the last decoder's error itself: `ParseRSAPrivateKeyFromPEM` the PKCS8 decoder's error,
whatever the PKCS1 error was, and `ParseECPrivateKeyFromPEM` the SEC1 decoder's error. -/
theorem parse_private_key_all_fail (x : X509) (key : ByteSlice) (block : PemBlock)
    (hpem : x.pemDecode key = some block) :
    (∀ e1 e8, x.ParsePKCS1PrivateKey block.Bytes = .error e1 →
      x.ParsePKCS8PrivateKey block.Bytes = .error e8 →
      ParseRSAPrivateKeyFromPEM x key = (none, some e8)) ∧
    (∀ e, x.ParseECPrivateKey block.Bytes = .error e →
      ParseECPrivateKeyFromPEM x key = (none, some e)) := by
  constructor
  · intro e1 e8 hpkcs1 hpkcs8
    simp [ParseRSAPrivateKeyFromPEM, hpem, hpkcs1, hpkcs8]
  · intro e hsec1
    simp [ParseECPrivateKeyFromPEM, hpem, hsec1]

/-- C15 at a block that every decoder of the sample environment rejects. -/
theorem parse_private_key_all_fail_witness :
    sampleX509.pemDecode (ascii "-----BEGIN " ++ [0]) = some ⟨"", [0]⟩ ∧
    sampleX509.ParsePKCS1PrivateKey [0]
      = .error (.external "x509: failed to parse PKCS1 private key") ∧
    sampleX509.ParsePKCS8PrivateKey [0]
      = .error (.external "x509: failed to parse PKCS8 private key") ∧
    sampleX509.ParseECPrivateKey [0]
      = .error (.external "x509: failed to parse EC private key") ∧
    ParseRSAPrivateKeyFromPEM sampleX509 (ascii "-----BEGIN " ++ [0])
      = (none, some (.external "x509: failed to parse PKCS8 private key")) ∧
    ParseECPrivateKeyFromPEM sampleX509 (ascii "-----BEGIN " ++ [0])
      = (none, some (.external "x509: failed to parse EC private key")) :=
  ⟨rfl, rfl, rfl, rfl,
    (parse_private_key_all_fail sampleX509 (ascii "-----BEGIN " ++ [0]) ⟨"", [0]⟩
      (by rfl)).1 _ _ (by rfl) (by rfl),
    (parse_private_key_all_fail sampleX509 (ascii "-----BEGIN " ++ [0]) ⟨"", [0]⟩
      (by rfl)).2 _ (by rfl)⟩

/-- C20. The type-mismatch branch of `ParseECPrivateKeyFromPEM` is not reached: on every input
the function returns a nil key and `ErrKeyNotPEMEncoded`, or a nil key and the error of the
SEC1 decoder, or the key that the SEC1 decoder returned and a nil error. -/
theorem parse_ec_private_key_outcomes (x : X509) (key : ByteSlice) :
    (x.pemDecode key = none ∧
      ParseECPrivateKeyFromPEM x key = (none, some (.ErrKeyNotPEMEncoded (.bytes key)))) ∨
    (∃ block e, x.pemDecode key = some block ∧ x.ParseECPrivateKey block.Bytes = .error e ∧
      ParseECPrivateKeyFromPEM x key = (none, some e)) ∨
    (∃ block k, x.pemDecode key = some block ∧ x.ParseECPrivateKey block.Bytes = .ok k ∧
      ParseECPrivateKeyFromPEM x key = (some k, none)) := by
  unfold ParseECPrivateKeyFromPEM
  rcases hpem : x.pemDecode key with _ | block
  · exact Or.inl ⟨rfl, rfl⟩
  · rcases hsec1 : x.ParseECPrivateKey block.Bytes with e | k
    · exact Or.inr (Or.inl ⟨block, e, rfl, hsec1, by simp [hsec1]⟩)
    · exact Or.inr (Or.inr ⟨block, k, rfl, hsec1, by simp [hsec1, Value.assertECDSAPrivateKey]⟩)

/-! ## The validation error -/

/-- C16. A `ValidationError` is valid if and only if its flag set `Errors` is zero, whatever
its `Inner` error and its text are; `NewValidationError(text, flags)` is valid if and only if
`flags` is zero, and it stores the given flags and text with a nil `Inner`. -/
theorem validation_error_valid_iff (e : ValidationError) (inner : Option Error)
    (text : String) (flags : Nat) :
    (e.valid = true ↔ e.Errors = 0) ∧
    (ValidationError.valid ⟨inner, flags, text⟩ = true ↔ flags = 0) ∧
    ((NewValidationError text flags).valid = true ↔ flags = 0) ∧
    (NewValidationError text flags).Errors = flags ∧
    (NewValidationError text flags).text = text ∧
    (NewValidationError text flags).Inner = none := by
  simp [ValidationError.valid, NewValidationError]

theorem flag_and_flag_ne_zero_iff :
    ∀ a ∈ validationErrorFlags, ∀ f ∈ validationErrorFlags, (a &&& f ≠ 0 ↔ a = f) := by
  decide

theorem flag_lt : ∀ a ∈ validationErrorFlags, a < 2 ^ 32 ∧ a ≠ 0 := by
  decide

/-- The flags or-ed into an accumulator `v`: a flag is set in the result when it was set in
`v` or is one of those or-ed in, and the result is zero only when nothing was or-ed into a
zero accumulator. -/
theorem foldl_or_flags (T : List Nat) (v : Nat) (hv : v < 2 ^ 32)
    (hT : ∀ f ∈ T, f ∈ validationErrorFlags) :
    (∀ f ∈ validationErrorFlags,
      (T.foldl (fun v f => (v ||| f) % 2 ^ 32) v &&& f ≠ 0 ↔ (v &&& f ≠ 0 ∨ f ∈ T))) ∧
    (T.foldl (fun v f => (v ||| f) % 2 ^ 32) v = 0 ↔ v = 0 ∧ T = []) := by
  induction T generalizing v with
  | nil => simp
  | cons a T ih =>
    simp only [List.mem_cons, forall_eq_or_imp] at hT
    obtain ⟨ha, hT⟩ := hT
    have halt := (flag_lt a ha).1
    have hlt : v ||| a < 2 ^ 32 := Nat.or_lt_two_pow hv halt
    have hih := ih (v ||| a) hlt hT
    simp only [List.foldl_cons, Nat.mod_eq_of_lt hlt]
    constructor
    · intro f hf
      rw [(hih.1 f hf)]
      have hdist : (v ||| a) &&& f = (v &&& f) ||| (a &&& f) := by
        rw [Nat.and_comm, Nat.and_or_distrib_left, Nat.and_comm f v, Nat.and_comm f a]
      have hor : (v ||| a) &&& f ≠ 0 ↔ (v &&& f ≠ 0 ∨ a &&& f ≠ 0) := by
        rw [hdist, ne_eq, or_eq_zero_iff]
        tauto
      rw [hor, flag_and_flag_ne_zero_iff a ha f hf, List.mem_cons]
      constructor
      · rintro ((h | h) | h)
        · exact Or.inl h
        · exact Or.inr (Or.inl h.symm)
        · exact Or.inr (Or.inr h)
      · rintro (h | h | h)
        · exact Or.inl (Or.inl h)
        · exact Or.inl (Or.inr h.symm)
        · exact Or.inr h
    · rw [hih.2, or_eq_zero_iff]
      have hne := (flag_lt a ha).2
      simp [hne]

/-- C19. The ten flag constants have the values 1, 2, 4, ..., 512 and are pairwise disjoint;
for every list `T` of flags, the `uint32` in which the flags of `T` are or-ed has a flag `f`
set exactly when `f` is in `T`, and is zero exactly when `T` is empty. -/
theorem validation_error_flags_single_bits (T : List Nat)
    (hT : ∀ f ∈ T, f ∈ validationErrorFlags) :
    validationErrorFlags = [1, 2, 4, 8, 16, 32, 64, 128, 256, 512] ∧
    validationErrorFlags.Pairwise (fun a b => a &&& b = 0) ∧
    (∀ f ∈ validationErrorFlags, (orFlags T &&& f ≠ 0 ↔ f ∈ T)) ∧
    (orFlags T = 0 ↔ T = []) := by
  have h := foldl_or_flags T 0 (by decide) hT
  refine ⟨by decide, by decide, ?_, ?_⟩
  · intro f hf
    simpa [orFlags] using h.1 f hf
  · simpa [orFlags] using h.2

/-- C19 at the flags Expired and Malformed. -/
theorem validation_error_flags_single_bits_witness :
    (∀ f ∈ [ValidationErrorExpired, ValidationErrorMalformed], f ∈ validationErrorFlags) ∧
    validationErrorFlags = [1, 2, 4, 8, 16, 32, 64, 128, 256, 512] ∧
    validationErrorFlags.Pairwise (fun a b => a &&& b = 0) ∧
    (∀ f ∈ validationErrorFlags,
      (orFlags [ValidationErrorExpired, ValidationErrorMalformed] &&& f ≠ 0 ↔
        f ∈ [ValidationErrorExpired, ValidationErrorMalformed])) ∧
    (orFlags [ValidationErrorExpired, ValidationErrorMalformed] = 0 ↔
      [ValidationErrorExpired, ValidationErrorMalformed] = []) :=
  ⟨by decide, validation_error_flags_single_bits
    [ValidationErrorExpired, ValidationErrorMalformed] (by decide)⟩

/-! ## The registration of the HMAC methods -/

/-- C17. With a registry in which the last registration under a name wins: after `init`,
looking up "HS256", "HS384" and "HS512" yields a factory whose method is the instance
`SigningMethodHS256`, `SigningMethodHS384`, `SigningMethodHS512`, of that name and of hash
SHA-256, SHA-384, SHA-512; and for every HMAC method `m`, `m.Register()` is the registration
under `m.Alg()` of a factory that returns `m`, which a lookup of `m.Alg()` then yields. -/
theorem hmac_methods_registered {R : Type} (ops : RegistryOps R)
    (hlww : ∀ reg alg f a, ops.lookup (ops.RegisterSigningMethod alg f reg) a =
      if a = alg then some f else ops.lookup reg a)
    (reg : R) (m : SigningMethodHMAC) :
    (∃ f, ops.lookup (init ops reg) "HS256" = some f ∧ f () = .hmac SigningMethodHS256 ∧
      (f ()).Alg = "HS256" ∧ SigningMethodHS256.Hash = crypto.SHA256) ∧
    (∃ f, ops.lookup (init ops reg) "HS384" = some f ∧ f () = .hmac SigningMethodHS384 ∧
      (f ()).Alg = "HS384" ∧ SigningMethodHS384.Hash = crypto.SHA384) ∧
    (∃ f, ops.lookup (init ops reg) "HS512" = some f ∧ f () = .hmac SigningMethodHS512 ∧
      (f ()).Alg = "HS512" ∧ SigningMethodHS512.Hash = crypto.SHA512) ∧
    m.Register ops reg = ops.RegisterSigningMethod m.Alg (fun _ => .hmac m) reg ∧
    (∃ f, ops.lookup (m.Register ops reg) m.Alg = some f ∧ f () = .hmac m) := by
  refine ⟨⟨fun _ => .hmac SigningMethodHS256, ?_, rfl, rfl, rfl⟩,
    ⟨fun _ => .hmac SigningMethodHS384, ?_, rfl, rfl, rfl⟩,
    ⟨fun _ => .hmac SigningMethodHS512, ?_, rfl, rfl, rfl⟩, rfl,
    ⟨fun _ => .hmac m, ?_, rfl⟩⟩
  · simp only [init, SigningMethodHMAC.Register, hlww, SigningMethodHS256, SigningMethodHS384,
      SigningMethodHS512]
    simp
  · simp only [init, SigningMethodHMAC.Register, hlww, SigningMethodHS256, SigningMethodHS384,
      SigningMethodHS512]
    simp
  · simp only [init, SigningMethodHMAC.Register, hlww, SigningMethodHS256, SigningMethodHS384,
      SigningMethodHS512]
    simp
  · simp only [SigningMethodHMAC.Register, SigningMethodHMAC.Alg, hlww]
    simp

/-- C17 with the registry as a map, starting from the empty registry, for a method "HS1" of
hash SHA-1. -/
theorem hmac_methods_registered_witness :
    (∀ (reg : String → Option (Unit → SigningMethod)) alg f a,
      mapRegistry.lookup (mapRegistry.RegisterSigningMethod alg f reg) a =
        if a = alg then some f else mapRegistry.lookup reg a) ∧
    (∃ f, mapRegistry.lookup (init mapRegistry emptyRegistry) "HS256" = some f ∧
      f () = .hmac SigningMethodHS256 ∧
      (f ()).Alg = "HS256" ∧ SigningMethodHS256.Hash = crypto.SHA256) ∧
    (∃ f, mapRegistry.lookup (init mapRegistry emptyRegistry) "HS384" = some f ∧
      f () = .hmac SigningMethodHS384 ∧
      (f ()).Alg = "HS384" ∧ SigningMethodHS384.Hash = crypto.SHA384) ∧
    (∃ f, mapRegistry.lookup (init mapRegistry emptyRegistry) "HS512" = some f ∧
      f () = .hmac SigningMethodHS512 ∧
      (f ()).Alg = "HS512" ∧ SigningMethodHS512.Hash = crypto.SHA512) ∧
    SigningMethodHMAC.Register mapRegistry ⟨"HS1", 3⟩ emptyRegistry
      = mapRegistry.RegisterSigningMethod (SigningMethodHMAC.Alg ⟨"HS1", 3⟩)
          (fun _ => .hmac ⟨"HS1", 3⟩) emptyRegistry ∧
    (∃ f, mapRegistry.lookup (SigningMethodHMAC.Register mapRegistry ⟨"HS1", 3⟩ emptyRegistry)
        (SigningMethodHMAC.Alg ⟨"HS1", 3⟩) = some f ∧ f () = .hmac ⟨"HS1", 3⟩) :=
  ⟨fun _ _ _ _ => rfl,
    hmac_methods_registered mapRegistry (fun _ _ _ _ => rfl) emptyRegistry ⟨"HS1", 3⟩⟩

end jwt
